import Mathlib

/-!
Shallow embedding of the rfs-rs in-memory key-value server
(protocol codec, typed keyspace, expiry index, append-only log)
and proofs about it.

Modelling conventions:
* Rust `Bytes` / `Vec<u8>` / `&[u8]` are `List Nat` (each entry a byte value).
* Rust `String` values are also `List Nat` (their UTF-8 bytes); validity is
  checked explicitly where the source performs `String::from_utf8`.
* `Instant` is a `Nat` of milliseconds; `Instant::now()` becomes an explicit
  `now` argument threaded to exactly the operations that call it.
* `f64` is modelled exactly by `F64`: NaN, the two infinities, and finite
  values as rationals.  Parsing a decimal string is exact; this agrees with
  the observable Rust behaviour on every input appearing in the theorems
  below (Rust additionally rounds to the nearest binary float, which is
  irrelevant for the finiteness / NaN questions treated here).
* `HashMap` / `HashSet` are association lists / duplicate-free lists; their
  unspecified iteration order is the list order.
* `BinaryHeap<Reverse<(Instant, String)>>` is a list kept sorted ascending
  by `(instant, key)`; a binary heap is observationally a sorted sequence
  because the only eliminators used (`peek`, `pop`) return minima.
* Functions that recurse through nested data carry an explicit fuel
  argument (first), so that they are structurally recursive and reduce
  inside the kernel; top-level wrappers supply sufficient fuel.
-/

namespace Rfs

/-- Byte strings: Rust `Bytes` / `Vec<u8>`. -/
abbrev Bytes := List Nat

/-- Keys are Rust `String`s, modelled by their UTF-8 bytes. -/
abbrev Key := List Nat

/-- UTF-8 bytes of an ASCII Lean string literal (used to write byte-string
constants; every literal in this file is ASCII). -/
def asciiBytes (s : String) : List Nat := s.data.map Char.toNat

/-- CR LF. -/
def crlf : List Nat := [13, 10]

/-- Rust `u8::is_ascii_whitespace`-compatible set used by `str::trim` on the
ASCII inputs relevant here (space, tab, newline, vertical tab, form feed,
carriage return). -/
def isWs (b : Nat) : Bool := b = 32 || b = 9 || b = 10 || b = 11 || b = 12 || b = 13

/-- Model of Rust `str::trim_start` at byte level. -/
def trimStart : List Nat → List Nat
  | [] => []
  | b :: rest => if isWs b then trimStart rest else b :: rest

/-- Model of Rust `str::trim_end` at byte level. -/
def trimEnd (l : List Nat) : List Nat := ((trimStart l.reverse)).reverse

/-- Model of Rust `str::trim` at byte level. -/
def trim (l : List Nat) : List Nat := trimEnd (trimStart l)

/-- Model of `u8::to_ascii_uppercase`, applied bytewise as in
`str::to_ascii_uppercase`. -/
def upByte (b : Nat) : Nat := if 97 ≤ b ∧ b ≤ 122 then b - 32 else b

/-- Model of `str::to_ascii_uppercase` (bytewise on ASCII letters). -/
def upper (l : List Nat) : List Nat := l.map upByte

/-- Decimal digit test. -/
def isDigit (b : Nat) : Bool := 48 ≤ b && b ≤ 57

/-- Numeric value of a run of decimal digit bytes. -/
def digitsVal (l : List Nat) : Nat := l.foldl (fun acc b => acc * 10 + (b - 48)) 0

/-- Model of Rust `str::parse::<u64>` (and `usize` on 64-bit targets):
an optional leading plus sign, then one or more decimal digits, rejecting
values that overflow 64 bits. -/
def parseU64 (l : List Nat) : Option Nat :=
  let body := if l.head? = some 43 then l.drop 1 else l
  if body ≠ [] ∧ body.all isDigit ∧ digitsVal body < 2 ^ 64 then
    some (digitsVal body)
  else none

/-- Model of Rust `str::parse::<i64>` (and `isize`): an optional sign, then
one or more decimal digits, rejecting values outside the 64-bit range. -/
def parseI64 (l : List Nat) : Option Int :=
  if l.head? = some 45 then
    let rest := l.drop 1
    if rest ≠ [] ∧ rest.all isDigit ∧ digitsVal rest ≤ 2 ^ 63 then
      some (-(digitsVal rest : Int))
    else none
  else if l.head? = some 43 then
    let rest := l.drop 1
    if rest ≠ [] ∧ rest.all isDigit ∧ digitsVal rest < 2 ^ 63 then
      some (digitsVal rest : Int)
    else none
  else
    if l ≠ [] ∧ l.all isDigit ∧ digitsVal l < 2 ^ 63 then
      some (digitsVal l : Int)
    else none

/-- Fuel-driven decimal rendering of a natural number (digits most
significant first); `natDecimal` supplies sufficient fuel. -/
def natDecAux : Nat → Nat → List Nat
  | 0, _ => []
  | fuel + 1, n => if n < 10 then [48 + n] else natDecAux fuel (n / 10) ++ [48 + n % 10]

/-- Model of `u64::to_string` / `usize::to_string` (also used for list
lengths in the encoder). -/
def natDecimal (n : Nat) : List Nat := natDecAux (n + 1) n

/-- Model of `i64::to_string`. -/
def intDecimal (i : Int) : List Nat :=
  if i < 0 then 45 :: natDecimal i.natAbs else natDecimal i.toNat

/-- Exact model of `f64`: NaN, the infinities, and finite values as exact
rationals.  (Every finite binary64 value is a rational, and the textual
behaviour relevant to the claims — which strings parse, which parsed values
are finite — is preserved exactly.) -/
inductive F64 where
  | nan
  | inf
  | neginf
  | finite (q : ℚ)
  deriving DecidableEq, Repr

/-- Finiteness of a modelled `f64` (Rust `f64::is_finite`). -/
def F64.isFinite : F64 → Bool
  | .finite _ => true
  | _ => false

/-- Model of `f64::partial_cmp`: `none` exactly when an operand is NaN. -/
def F64.pcmp : F64 → F64 → Option Ordering
  | .nan, _ => none
  | _, .nan => none
  | .inf, .inf => some .eq
  | .inf, _ => some .gt
  | _, .inf => some .lt
  | .neginf, .neginf => some .eq
  | .neginf, _ => some .lt
  | _, .neginf => some .gt
  | .finite a, .finite b => some (compare a b)

/-- Model of `f64` `>=` (false when an operand is NaN). -/
def F64.ge (a b : F64) : Bool :=
  match a.pcmp b with
  | some .gt | some .eq => true
  | _ => false

/-- Model of `f64` `<=` (false when an operand is NaN). -/
def F64.le (a b : F64) : Bool :=
  match a.pcmp b with
  | some .lt | some .eq => true
  | _ => false

/-- Digits of a byte list up to the first non-digit. -/
def takeDigits (l : List Nat) : List Nat := l.takeWhile isDigit

/-- Mantissa/fraction/exponent assembly for float parsing: value is
`(intPart.fracPart) * 10 ^ exp` as an exact rational. -/
def decToRat (ip fp : List Nat) (exp : Int) : ℚ :=
  ((digitsVal ip : ℚ) + (digitsVal fp : ℚ) / ((10 : ℚ) ^ fp.length)) * (10 : ℚ) ^ exp

/-- Case-insensitive ASCII comparison against a keyword. -/
def matchesKw (l : List Nat) (kw : String) : Bool :=
  decide (l.map (fun b => if 65 ≤ b ∧ b ≤ 90 then b + 32 else b) = asciiBytes kw)

/-- Model of Rust `str::parse::<f64>`: optional sign; `inf`, `infinity` or
`nan` (any case); otherwise a decimal mantissa `d+[.d*]` or `.d+` with an
optional `e`/`E` exponent.  Parsing is exact (no rounding); Rust
additionally saturates enormous exponents to infinity, a case no theorem
below exercises. -/
def parseF64 (l : List Nat) : Option F64 :=
  let (neg, body) :=
    match l with
    | 45 :: rest => (true, rest)
    | 43 :: rest => (false, rest)
    | _ => (false, l)
  if matchesKw body "inf" || matchesKw body "infinity" then
    some (if neg then .neginf else .inf)
  else if matchesKw body "nan" then
    some .nan
  else
    let ip := takeDigits body
    let afterIp := body.drop ip.length
    let (fp, afterFp) :=
      match afterIp with
      | 46 :: rest => (takeDigits rest, rest.drop (takeDigits rest).length)
      | _ => ([], afterIp)
    let expPart : Option Int :=
      match afterFp with
      | [] => some 0
      | 101 :: rest | 69 :: rest =>
        match rest with
        | 45 :: ds => if ds ≠ [] ∧ ds.all isDigit ∧ ds = takeDigits ds then some (-(digitsVal ds : Int)) else none
        | 43 :: ds => if ds ≠ [] ∧ ds.all isDigit ∧ ds = takeDigits ds then some (digitsVal ds : Int) else none
        | ds => if ds ≠ [] ∧ ds.all isDigit ∧ ds = takeDigits ds then some (digitsVal ds : Int) else none
      | _ => none
    -- the mantissa must contain at least one digit, and when there is no
    -- fractional dot the whole mantissa is `ip`
    if (ip = [] ∧ fp = []) ∨ (afterIp ≠ [] ∧ afterIp.head? ≠ some 46 ∧ afterFp = afterIp ∧ expPart = none) then
      none
    else
      match expPart with
      | none => none
      | some e =>
        if ip = [] ∧ fp = [] then none
        else
          let q := decToRat ip fp e
          some (.finite (if neg then -q else q))

/-- Length of the valid UTF-8 sequence starting at byte `b` with
continuation bytes from `rest` (RFC 3629 ranges), or `none` when the
sequence is malformed; models the validation in `String::from_utf8` /
`str::from_utf8`. -/
def utf8SeqLen (b : Nat) (rest : List Nat) : Option Nat :=
  if b < 0x80 then some 1
  else if 0xC2 ≤ b ∧ b ≤ 0xDF then
    match rest with
    | c1 :: _ => if 0x80 ≤ c1 ∧ c1 ≤ 0xBF then some 2 else none
    | [] => none
  else if b = 0xE0 then
    match rest with
    | c1 :: c2 :: _ =>
      if (0xA0 ≤ c1 ∧ c1 ≤ 0xBF) ∧ (0x80 ≤ c2 ∧ c2 ≤ 0xBF) then some 3 else none
    | _ => none
  else if (0xE1 ≤ b ∧ b ≤ 0xEC) ∨ b = 0xEE ∨ b = 0xEF then
    match rest with
    | c1 :: c2 :: _ =>
      if (0x80 ≤ c1 ∧ c1 ≤ 0xBF) ∧ (0x80 ≤ c2 ∧ c2 ≤ 0xBF) then some 3 else none
    | _ => none
  else if b = 0xED then
    match rest with
    | c1 :: c2 :: _ =>
      if (0x80 ≤ c1 ∧ c1 ≤ 0x9F) ∧ (0x80 ≤ c2 ∧ c2 ≤ 0xBF) then some 3 else none
    | _ => none
  else if b = 0xF0 then
    match rest with
    | c1 :: c2 :: c3 :: _ =>
      if (0x90 ≤ c1 ∧ c1 ≤ 0xBF) ∧ (0x80 ≤ c2 ∧ c2 ≤ 0xBF) ∧ (0x80 ≤ c3 ∧ c3 ≤ 0xBF) then
        some 4
      else none
    | _ => none
  else if 0xF1 ≤ b ∧ b ≤ 0xF3 then
    match rest with
    | c1 :: c2 :: c3 :: _ =>
      if (0x80 ≤ c1 ∧ c1 ≤ 0xBF) ∧ (0x80 ≤ c2 ∧ c2 ≤ 0xBF) ∧ (0x80 ≤ c3 ∧ c3 ≤ 0xBF) then
        some 4
      else none
    | _ => none
  else if b = 0xF4 then
    match rest with
    | c1 :: c2 :: c3 :: _ =>
      if (0x80 ≤ c1 ∧ c1 ≤ 0x8F) ∧ (0x80 ≤ c2 ∧ c2 ≤ 0xBF) ∧ (0x80 ≤ c3 ∧ c3 ≤ 0xBF) then
        some 4
      else none
    | _ => none
  else none

/-- Fuel-driven worker for `utf8Valid` (each step consumes at least one
byte, so the list length is sufficient fuel). -/
def utf8ValidAux : Nat → List Nat → Bool
  | 0, l => l.isEmpty
  | _ + 1, [] => true
  | fuel + 1, b :: rest =>
    match utf8SeqLen b rest with
    | some n => utf8ValidAux fuel ((b :: rest).drop n)
    | none => false

/-- UTF-8 validity of a byte list. -/
def utf8Valid (l : List Nat) : Bool := utf8ValidAux l.length l

/-- The UTF-8 replacement character U+FFFD as bytes. -/
def replacementBytes : List Nat := [0xEF, 0xBF, 0xBD]

/-- One step of lossy UTF-8 decoding: returns the passed-through (or
replacement) bytes and the number of input bytes consumed (at least one). -/
def utf8LossyStep (b : Nat) (rest : List Nat) : List Nat × Nat :=
  if b < 0x80 then ([b], 1)
  else if 0xC2 ≤ b ∧ b ≤ 0xDF then
    match rest with
    | c1 :: _ => if 0x80 ≤ c1 ∧ c1 ≤ 0xBF then ([b, c1], 2) else (replacementBytes, 1)
    | [] => (replacementBytes, 1)
  else if 0xE0 ≤ b ∧ b ≤ 0xEF then
    let lo1 := if b = 0xE0 then 0xA0 else 0x80
    let hi1 := if b = 0xED then 0x9F else 0xBF
    match rest with
    | c1 :: c2 :: _ =>
      if lo1 ≤ c1 ∧ c1 ≤ hi1 then
        if 0x80 ≤ c2 ∧ c2 ≤ 0xBF then ([b, c1, c2], 3) else (replacementBytes, 2)
      else (replacementBytes, 1)
    | [c1] => if lo1 ≤ c1 ∧ c1 ≤ hi1 then (replacementBytes, 2) else (replacementBytes, 1)
    | [] => (replacementBytes, 1)
  else if 0xF0 ≤ b ∧ b ≤ 0xF4 then
    let lo1 := if b = 0xF0 then 0x90 else 0x80
    let hi1 := if b = 0xF4 then 0x8F else 0xBF
    match rest with
    | c1 :: c2 :: c3 :: _ =>
      if lo1 ≤ c1 ∧ c1 ≤ hi1 then
        if 0x80 ≤ c2 ∧ c2 ≤ 0xBF then
          if 0x80 ≤ c3 ∧ c3 ≤ 0xBF then ([b, c1, c2, c3], 4) else (replacementBytes, 3)
        else (replacementBytes, 2)
      else (replacementBytes, 1)
    | [c1, c2] =>
      if lo1 ≤ c1 ∧ c1 ≤ hi1 then
        if 0x80 ≤ c2 ∧ c2 ≤ 0xBF then (replacementBytes, 3) else (replacementBytes, 2)
      else (replacementBytes, 1)
    | [c1] => if lo1 ≤ c1 ∧ c1 ≤ hi1 then (replacementBytes, 2) else (replacementBytes, 1)
    | [] => (replacementBytes, 1)
  else (replacementBytes, 1)

/-- Fuel-driven worker for `utf8Lossy`. -/
def utf8LossyAux : Nat → List Nat → List Nat
  | 0, _ => []
  | _ + 1, [] => []
  | fuel + 1, b :: rest =>
    let (out, used) := utf8LossyStep b rest
    out ++ utf8LossyAux fuel ((b :: rest).drop used)

/-- Model of `String::from_utf8_lossy`: invalid maximal subparts become the
replacement character; valid bytes pass through unchanged. -/
def utf8Lossy (l : List Nat) : List Nat := utf8LossyAux l.length l

/-! ## Association-list maps (model of `HashMap`) -/

/-- Lookup in an association list (`HashMap::get` / `contains_key`). -/
def aGet {α : Type} (m : List (Key × α)) (k : Key) : Option α :=
  match m.find? (fun p => p.1 = k) with
  | some p => some p.2
  | none => none

/-- Insert-or-replace in an association list (`HashMap::insert`). -/
def aInsert {α : Type} (m : List (Key × α)) (k : Key) (v : α) : List (Key × α) :=
  match m.find? (fun p => p.1 = k) with
  | some _ => m.map (fun p => if p.1 = k then (k, v) else p)
  | none => m ++ [(k, v)]

/-- Removal from an association list (`HashMap::remove`). -/
def aRemove {α : Type} (m : List (Key × α)) (k : Key) : List (Key × α) :=
  m.filter (fun p => ¬ p.1 = k)

/-! ## Value model — `src/store/value.rs` -/

/-- `Value` from `src/store/value.rs`: the five value shapes.
`VecDeque<Bytes>` is a list (front first); `HashSet<Bytes>` a
duplicate-free list; `HashMap<Bytes, Bytes>` an association list;
the sorted set a list of member/score pairs. -/
inductive Value where
  | str (b : Bytes)
  | list (l : List Bytes)
  | set (s : List Bytes)
  | hash (h : List (Bytes × Bytes))
  | zset (z : List (Bytes × F64))
  deriving DecidableEq, Repr

/-! ## Expiry index — `src/store/expire.rs` -/

/-- Lexicographic byte-list order used to model the `Ord` instance on
`(Instant, String)` pairs inside `BinaryHeap<Reverse<_>>`. -/
def bytesLe : List Nat → List Nat → Bool
  | [], _ => true
  | _ :: _, [] => false
  | a :: as_, b :: bs => if a < b then true else if a = b then bytesLe as_ bs else false

/-- Heap-pair order: by instant, then by key bytes. -/
def pairLe (a b : Nat × Key) : Bool :=
  a.1 < b.1 || (a.1 = b.1 && bytesLe a.2 b.2)

/-- Ordered insertion, modelling `BinaryHeap::push` (the heap is kept as
the sorted sequence it is observationally equal to). -/
def heapInsert (x : Nat × Key) : List (Nat × Key) → List (Nat × Key)
  | [] => [x]
  | y :: ys => if pairLe x y then x :: y :: ys else y :: heapInsert x ys

/-- `Expiry` from `src/store/expire.rs`: the authoritative deadline map and
the min-ordered pending queue. -/
structure Expiry where
  deadlines : List (Key × Nat)
  heap : List (Nat × Key)
  deriving DecidableEq, Repr

/-- `Expiry::new` / `Default`. -/
def Expiry.empty : Expiry := ⟨[], []⟩

/-- `Expiry::set_deadline`: overwrite the map entry and push a fresh pair
onto the queue (old pairs go stale). -/
def Expiry.set_deadline (e : Expiry) (k : Key) (d : Nat) : Expiry :=
  ⟨aInsert e.deadlines k d, heapInsert (d, k) e.heap⟩

/-- `Expiry::remove`: drop the map entry only; stale queue pairs are
reconciled at drain time. -/
def Expiry.remove (e : Expiry) (k : Key) : Expiry :=
  ⟨aRemove e.deadlines k, e.heap⟩

/-- `Expiry::is_expired`: true when a deadline exists and `now ≥ deadline`
(no deadline means not expired). -/
def Expiry.is_expired (e : Expiry) (k : Key) (now : Nat) : Bool :=
  match aGet e.deadlines k with
  | some d => now ≥ d
  | none => false

/-- `Expiry::get_deadline`. -/
def Expiry.get_deadline (e : Expiry) (k : Key) : Option Nat :=
  aGet e.deadlines k

/-- Loop body of `Expiry::drain_expired`: pop queue heads with instant at
or before `now`; a popped pair is emitted (and its map entry removed) only
when the map still holds exactly the popped instant; the loop stops at the
first not-yet-due head, which stays queued. -/
def drainLoop (now : Nat) : List (Nat × Key) → List (Key × Nat) → List Key × List (Nat × Key) × List (Key × Nat)
  | [], dl => ([], [], dl)
  | (d, k) :: rest, dl =>
    if now < d then ([], (d, k) :: rest, dl)
    else
      match aGet dl k with
      | some cur =>
        if cur = d then
          let (ex, h, dl2) := drainLoop now rest (aRemove dl k)
          (k :: ex, h, dl2)
        else drainLoop now rest dl
      | none => drainLoop now rest dl

/-- `Expiry::drain_expired`, returning the expired keys and the updated
index. -/
def Expiry.drain_expired (e : Expiry) (now : Nat) : List Key × Expiry :=
  let (ex, h, dl) := drainLoop now e.heap e.deadlines
  (ex, ⟨dl, h⟩)

/-! ## Keyspace engine — `src/store/mod.rs` (plus `Database::zrem` from
`src/store/zset.rs`, which the AOF replayer calls) -/

/-- `Database` from `src/store/mod.rs`. -/
structure Database where
  data : List (Key × Value)
  expiry : Expiry
  deriving DecidableEq, Repr

/-- `Database::new` / `Default`. -/
def Database.empty : Database := ⟨[], Expiry.empty⟩

/-- `Database::set`: clears any prior deadline, then stores the value. -/
def Database.set (db : Database) (k : Key) (v : Value) : Database :=
  ⟨aInsert db.data k v, db.expiry.remove k⟩

/-- `Database::set_with_expiry`: stores the value and installs the deadline
`now + ttl` (milliseconds). -/
def Database.set_with_expiry (db : Database) (k : Key) (v : Value) (ttlMs now : Nat) : Database :=
  ⟨aInsert db.data k v, db.expiry.set_deadline k (now + ttlMs)⟩

/-- `Database::get`: lazy expiry check, removing the entry and its index
record when expired. -/
def Database.get (db : Database) (k : Key) (now : Nat) : Database × Option Value :=
  if db.expiry.is_expired k now then
    (⟨aRemove db.data k, db.expiry.remove k⟩, none)
  else (db, aGet db.data k)

/-- `Database::exists`: counts present non-expired keys, removing expired
ones on the way (duplicates count multiple times). -/
def Database.existsCount (db : Database) (keys : List Key) (now : Nat) : Database × Nat :=
  match keys with
  | [] => (db, 0)
  | k :: rest =>
    if db.expiry.is_expired k now then
      let db2 : Database := ⟨aRemove db.data k, db.expiry.remove k⟩
      Database.existsCount db2 rest now
    else
      let (db2, n) := Database.existsCount db rest now
      (db2, if (aGet db.data k).isSome then n + 1 else n)

/-- `Database::del`: removes each present key together with its deadline;
returns the count removed. -/
def Database.del (db : Database) (keys : List Key) : Database × Nat :=
  match keys with
  | [] => (db, 0)
  | k :: rest =>
    if (aGet db.data k).isSome then
      let db2 : Database := ⟨aRemove db.data k, db.expiry.remove k⟩
      let (db3, n) := Database.del db2 rest
      (db3, n + 1)
    else Database.del db rest

/-- `Database::ttl_millis`: `-2` when absent (or expired — with removal),
`-1` when present without a deadline, otherwise the remaining
milliseconds (saturating at zero). -/
def Database.ttl_millis (db : Database) (k : Key) (now : Nat) : Database × Int :=
  if db.expiry.is_expired k now then
    (⟨aRemove db.data k, db.expiry.remove k⟩, -2)
  else if (aGet db.data k).isNone then (db, -2)
  else
    match db.expiry.get_deadline k with
    | some d => (db, ((d - now : Nat) : Int))
    | none => (db, -1)

/-- `Database::evict_expired`: drain the expiry index and delete each
returned key from the data map; returns the count evicted. -/
def Database.evict_expired (db : Database) (now : Nat) : Database × Nat :=
  let (expired, e2) := db.expiry.drain_expired now
  (⟨expired.foldl (fun m k => aRemove m k) db.data, e2⟩, expired.length)

/-- `Database::lpush`: clears any prior deadline; creates the deque on
first use; pushes each value at the front in argument order; returns the
new length (0 on a wrong-type key, handled by the caller). -/
def Database.lpush (db : Database) (k : Key) (vs : List Bytes) : Database × Nat :=
  let db1 : Database := ⟨db.data, db.expiry.remove k⟩
  match aGet db1.data k with
  | none =>
    let deque := vs.reverse
    (⟨aInsert db1.data k (.list deque), db1.expiry⟩, deque.length)
  | some (.list l) =>
    let deque := vs.reverse ++ l
    (⟨aInsert db1.data k (.list deque), db1.expiry⟩, deque.length)
  | some _ => (db1, 0)

/-- `Database::rpush`: like `lpush` but pushing at the back. -/
def Database.rpush (db : Database) (k : Key) (vs : List Bytes) : Database × Nat :=
  let db1 : Database := ⟨db.data, db.expiry.remove k⟩
  match aGet db1.data k with
  | none => (⟨aInsert db1.data k (.list vs), db1.expiry⟩, vs.length)
  | some (.list l) =>
    let deque := l ++ vs
    (⟨aInsert db1.data k (.list deque), db1.expiry⟩, deque.length)
  | some _ => (db1, 0)

/-- `Database::lpop`: pops the front element; when the deque empties the
key is removed from the data map (the expiry index is not touched). -/
def Database.lpop (db : Database) (k : Key) : Database × Option Bytes :=
  match aGet db.data k with
  | some (.list l) =>
    match l with
    | [] => (⟨aRemove db.data k, db.expiry⟩, none)
    | x :: rest =>
      if rest.isEmpty then (⟨aRemove db.data k, db.expiry⟩, some x)
      else (⟨aInsert db.data k (.list rest), db.expiry⟩, some x)
  | _ => (db, none)

/-- `Database::rpop`: pops the back element; same emptiness handling as
`lpop`. -/
def Database.rpop (db : Database) (k : Key) : Database × Option Bytes :=
  match aGet db.data k with
  | some (.list l) =>
    match l.getLast? with
    | none => (⟨aRemove db.data k, db.expiry⟩, none)
    | some x =>
      let rest := l.dropLast
      if rest.isEmpty then (⟨aRemove db.data k, db.expiry⟩, some x)
      else (⟨aInsert db.data k (.list rest), db.expiry⟩, some x)
  | _ => (db, none)

/-- `Database::lrange`: inclusive slice with the source's index
arithmetic — negative indices are measured from the end, `start` clamps
into `[0, len]`, `stop` into `[0, len-1]` (the `as usize` cast of a `-1`
stop on an empty deque yields an empty result either way). -/
def Database.lrange (db : Database) (k : Key) (start stop : Int) : List Bytes :=
  match aGet db.data k with
  | some (.list l) =>
    let len : Int := l.length
    let s : Nat := (if start < 0 then max (len + start) 0 else min start len).toNat
    let e : Nat := (if stop < 0 then max (len + stop) 0 else min stop (len - 1)).toNat
    if s > e then [] else (l.drop s).take (e - s + 1)
  | _ => []

/-- `HashSet::insert` step for `sadd`: returns the updated set and whether
the member was new. -/
def setInsert (s : List Bytes) (m : Bytes) : List Bytes × Bool :=
  if s.contains m then (s, false) else (s ++ [m], true)

/-- `Database::sadd`: creates the set on first use, inserts each member,
returns the count newly inserted (0 on a wrong-type key). -/
def Database.sadd (db : Database) (k : Key) (ms : List Bytes) : Database × Nat :=
  match aGet db.data k with
  | none =>
    let (s, added) := ms.foldl (fun (p : List Bytes × Nat) m =>
      let (s2, isNew) := setInsert p.1 m
      (s2, if isNew then p.2 + 1 else p.2)) ([], 0)
    (⟨aInsert db.data k (.set s), db.expiry⟩, added)
  | some (.set s0) =>
    let (s, added) := ms.foldl (fun (p : List Bytes × Nat) m =>
      let (s2, isNew) := setInsert p.1 m
      (s2, if isNew then p.2 + 1 else p.2)) (s0, 0)
    (⟨aInsert db.data k (.set s), db.expiry⟩, added)
  | some _ => (db, 0)

/-- `Database::srem`: removes members, deletes the key when the set
empties (the expiry index is not touched), returns the count removed. -/
def Database.srem (db : Database) (k : Key) (ms : List Bytes) : Database × Nat :=
  match aGet db.data k with
  | some (.set s0) =>
    let s := s0.filter (fun m => ¬ ms.contains m)
    let removed := s0.length - s.length
    if s.isEmpty then (⟨aRemove db.data k, db.expiry⟩, removed)
    else (⟨aInsert db.data k (.set s), db.expiry⟩, removed)
  | _ => (db, 0)

/-- `Database::smembers` (read-only; no expiry check in the source). -/
def Database.smembers (db : Database) (k : Key) : List Bytes :=
  match aGet db.data k with
  | some (.set s) => s
  | _ => []

/-- `Database::hset`: creates the field map on first use; inserts each
pair, counting only fields that were absent. -/
def Database.hset (db : Database) (k : Key) (fs : List (Bytes × Bytes)) : Database × Nat :=
  match aGet db.data k with
  | none =>
    let (h, added) := fs.foldl (fun (p : List (Bytes × Bytes) × Nat) fv =>
      let fresh := (p.1.find? (fun q => q.1 = fv.1)).isNone
      (if fresh then p.1 ++ [fv] else p.1.map (fun q => if q.1 = fv.1 then fv else q),
       if fresh then p.2 + 1 else p.2)) ([], 0)
    (⟨aInsert db.data k (.hash h), db.expiry⟩, added)
  | some (.hash h0) =>
    let (h, added) := fs.foldl (fun (p : List (Bytes × Bytes) × Nat) fv =>
      let fresh := (p.1.find? (fun q => q.1 = fv.1)).isNone
      (if fresh then p.1 ++ [fv] else p.1.map (fun q => if q.1 = fv.1 then fv else q),
       if fresh then p.2 + 1 else p.2)) (h0, 0)
    (⟨aInsert db.data k (.hash h), db.expiry⟩, added)
  | some _ => (db, 0)

/-- `Database::hget` (read-only). -/
def Database.hget (db : Database) (k : Key) (f : Bytes) : Option Bytes :=
  match aGet db.data k with
  | some (.hash h) =>
    match h.find? (fun q => q.1 = f) with
    | some q => some q.2
    | none => none
  | _ => none

/-- `Database::hgetall` (read-only). -/
def Database.hgetall (db : Database) (k : Key) : List (Bytes × Bytes) :=
  match aGet db.data k with
  | some (.hash h) => h
  | _ => []

/-- The comparator of `Database::zadd`: `partial_cmp` on scores (with the
source's `.unwrap()` as the `none` = panic case), ties broken by byte
comparison of the members. -/
def zCmp (a b : Bytes × F64) : Option Ordering :=
  (a.2.pcmp b.2).map (fun o =>
    if o = .eq then (if a.1 = b.1 then .eq else if bytesLe a.1 b.1 then .lt else .gt) else o)

/-- Ordered insertion under a partial comparator; `none` models the panic
of the unwrapped comparison. -/
def insertPartial (x : Bytes × F64) : List (Bytes × F64) → Option (List (Bytes × F64))
  | [] => some [x]
  | y :: ys =>
    match zCmp x y with
    | none => none
    | some o =>
      if o = .gt then (insertPartial x ys).map (fun r => y :: r)
      else some (x :: y :: ys)

/-- `Vec::sort_by` under the partial comparator; `none` models the panic
raised by the source when a NaN score is compared. -/
def sortPartial : List (Bytes × F64) → Option (List (Bytes × F64))
  | [] => some []
  | x :: xs => (sortPartial xs).bind (insertPartial x)

/-- Score upsert loop of `Database::zadd`: existing members have their pair
replaced in place, new members are appended and counted. -/
def zUpsert (v : List (Bytes × F64)) (added : Nat) : List (Bytes × F64) → List (Bytes × F64) × Nat
  | [] => (v, added)
  | (m, s) :: rest =>
    match v.findIdx? (fun p => p.1 = m) with
    | some i => zUpsert (v.set i (m, s)) added rest
    | none => zUpsert (v ++ [(m, s)]) (added + 1) rest

/-- `Database::zadd` (identical text in `src/store/mod.rs` and
`src/store/zset.rs`): creates the container on first use (even when no
member is supplied), upserts, then re-sorts; `none` models the panic of
the unwrapped NaN comparison. -/
def Database.zadd (db : Database) (k : Key) (ms : List (Bytes × F64)) : Option (Database × Nat) :=
  match aGet db.data k with
  | none =>
    let (v, added) := zUpsert [] 0 ms
    (sortPartial v).map (fun sorted => (⟨aInsert db.data k (.zset sorted), db.expiry⟩, added))
  | some (.zset v0) =>
    let (v, added) := zUpsert v0 0 ms
    (sortPartial v).map (fun sorted => (⟨aInsert db.data k (.zset sorted), db.expiry⟩, added))
  | some _ => some (db, 0)

/-- `Database::zrem` from `src/store/zset.rs` (called by the AOF replayer):
removes members, deletes the key when the container empties (the expiry
index is not touched). -/
def Database.zrem (db : Database) (k : Key) (ms : List Bytes) : Database × Nat :=
  match aGet db.data k with
  | some (.zset v0) =>
    let v := v0.filter (fun p => ¬ ms.contains p.1)
    let removed := v0.length - v.length
    if v.isEmpty then (⟨aRemove db.data k, db.expiry⟩, removed)
    else (⟨aInsert db.data k (.zset v), db.expiry⟩, removed)
  | _ => (db, 0)

/-- `Database::is_type`: an absent key is compatible with every shape;
no expiry check is performed in the source. -/
def Database.is_type (db : Database) (k : Key) (expected : List Nat) : Bool :=
  match aGet db.data k with
  | none => true
  | some (.str _) => expected = asciiBytes "string"
  | some (.list _) => expected = asciiBytes "list"
  | some (.set _) => expected = asciiBytes "set"
  | some (.hash _) => expected = asciiBytes "hash"
  | some (.zset _) => expected = asciiBytes "zset"

/-! ## Wire codec — `src/protocol/parser.rs` and `src/protocol/encoder.rs` -/

/-- `RespFrame` from `src/protocol/parser.rs`.  Simple strings and errors
carry the UTF-8 bytes of their Rust `String`. -/
inductive Resp where
  | simple (s : List Nat)
  | err (s : List Nat)
  | int (i : Int)
  | double (d : F64)
  | bool (b : Bool)
  | null
  | bulk (o : Option Bytes)
  | array (o : Option (List Resp))
  | map (o : Option (List (Resp × Resp)))
  | set (o : Option (List Resp))
  | push (l : List Resp)

instance : Inhabited Resp := ⟨.null⟩

/-- Model of Rust `f64` `Display` on the values reachable in this
development: keyword forms for the non-finite values, and for a finite
value with a terminating decimal expansion the exact decimal digits with
trailing fractional zeros removed (Rust prints the shortest decimal that
reparses to the same float; on exactly-representable decimals the two
agree). -/
def f64Display (d : F64) : List Nat :=
  match d with
  | .nan => asciiBytes "NaN"
  | .inf => asciiBytes "inf"
  | .neginf => asciiBytes "-inf"
  | .finite q =>
    let sign : List Nat := if q < 0 then [45] else []
    let n := q.num.natAbs
    let den := q.den
    -- smallest e with den ∣ 10^e, searched within the numeral size
    let e := (List.range (den + 1)).findIdx (fun i => den ∣ 10 ^ i)
    if den ∣ 10 ^ e then
      let scaled := n * (10 ^ e / den)
      let ipart := scaled / 10 ^ e
      let fdigits := natDecAux (scaled + 1) (scaled % 10 ^ e + 10 ^ e)
      let frac := (fdigits.drop 1).reverse.dropWhile (fun b => b = 48) |>.reverse
      sign ++ natDecimal ipart ++ (if frac.isEmpty then [] else 46 :: frac)
    else sign ++ natDecimal n ++ [47] ++ natDecimal den

mutual

/-- `encode_frame` from `src/protocol/encoder.rs`, fuel-indexed so that the
nested recursion is structural; `encodeFrame` supplies sufficient fuel. -/
def encodeF : Nat → Resp → List Nat
  | 0, _ => []
  | fuel + 1, f =>
    match f with
    | .simple s => 43 :: (s ++ crlf)
    | .err s => 45 :: (s ++ crlf)
    | .int i => 58 :: (intDecimal i ++ crlf)
    | .double d => 44 :: (f64Display d ++ crlf)
    | .bool b => 35 :: ((if b then [116] else [102]) ++ crlf)
    | .null => 95 :: crlf
    | .bulk none => asciiBytes "$-1" ++ crlf
    | .bulk (some b) => 36 :: (natDecimal b.length ++ crlf ++ b ++ crlf)
    | .array none => asciiBytes "*-1" ++ crlf
    | .array (some items) => 42 :: (natDecimal items.length ++ crlf ++ encodeListF fuel items)
    | .set none => asciiBytes "~-1" ++ crlf
    | .set (some items) => 126 :: (natDecimal items.length ++ crlf ++ encodeListF fuel items)
    | .map none => asciiBytes "%-1" ++ crlf
    | .map (some items) => 37 :: (natDecimal items.length ++ crlf ++ encodePairsF fuel items)
    | .push items => 62 :: (natDecimal items.length ++ crlf ++ encodeListF fuel items)

/-- Encoder loop over aggregate elements. -/
def encodeListF : Nat → List Resp → List Nat
  | 0, _ => []
  | _ + 1, [] => []
  | fuel + 1, f :: fs => encodeF fuel f ++ encodeListF fuel fs

/-- Encoder loop over map entries (key frame then value frame). -/
def encodePairsF : Nat → List (Resp × Resp) → List Nat
  | 0, _ => []
  | _ + 1, [] => []
  | fuel + 1, (k, v) :: fs => encodeF fuel k ++ encodeF fuel v ++ encodePairsF fuel fs

end

/-- The frames the AOF writer encodes: an array of non-null bulk strings
(`AofWriter::append` builds exactly this shape). -/
def bulkArray (args : List Bytes) : Resp :=
  .array (some (args.map (fun a => Resp.bulk (some a))))

/-- `encode_frame` applied to an AOF entry (`AofWriter::append`): the fuel
`args.length + 2` covers the two nesting levels plus one unit per element,
as the fuel-sufficiency lemmas below establish. -/
def aofEncode (args : List Bytes) : List Nat :=
  encodeF (args.length + 2) (bulkArray args)

/-- `find_crlf` from `src/protocol/parser.rs`: position of the first
window equal to CR LF. -/
def findCrlf : List Nat → Option Nat
  | [] => none
  | [_] => none
  | a :: b :: rest =>
    if a = 13 ∧ b = 10 then some 0 else (findCrlf (b :: rest)).map (· + 1)

/-- Protocol-error payloads (`RespError::Protocol` messages are irrelevant
to the claims; only the success/need-more/error trichotomy is modelled). -/
inductive PErr where
  | protocol
  deriving DecidableEq, Repr

/-- Parse result: `ok none` is the "need more bytes" case, `ok (some
(frame, used))` a parsed frame with its consumed byte count. -/
abbrev PResult := Except PErr (Option (Resp × Nat))

/-- Line-based head parse shared by the simple-string, error, integer and
double arms: the line bytes after the type byte up to the first CRLF, and
the total bytes consumed. -/
def lineOf (buf : List Nat) : Option (List Nat × Nat) :=
  match findCrlf (buf.drop 1) with
  | none => none
  | some i => some ((buf.drop 1).take i, i + 3)

/-- `parse_simple_string` from `src/protocol/parser.rs`. -/
def parseSimpleB (buf : List Nat) : PResult :=
  match lineOf buf with
  | none => .ok none
  | some (line, used) =>
    if utf8Valid line then .ok (some (.simple line, used)) else .error .protocol

/-- `parse_error` from `src/protocol/parser.rs`. -/
def parseErrB (buf : List Nat) : PResult :=
  match lineOf buf with
  | none => .ok none
  | some (line, used) =>
    if utf8Valid line then .ok (some (.err line, used)) else .error .protocol

/-- `parse_integer` from `src/protocol/parser.rs`. -/
def parseIntB (buf : List Nat) : PResult :=
  match lineOf buf with
  | none => .ok none
  | some (line, used) =>
    if utf8Valid line then
      match parseI64 line with
      | some i => .ok (some (.int i, used))
      | none => .error .protocol
    else .error .protocol

/-- `parse_double` from `src/protocol/parser.rs`. -/
def parseDoubleB (buf : List Nat) : PResult :=
  match lineOf buf with
  | none => .ok none
  | some (line, used) =>
    if utf8Valid line then
      match parseF64 line with
      | some d => .ok (some (.double d, used))
      | none => .error .protocol
    else .error .protocol

/-- `parse_bulk_string` from `src/protocol/parser.rs`. -/
def parseBulkB (buf : List Nat) : PResult :=
  match lineOf buf with
  | none => .ok none
  | some (line, headUsed) =>
    if utf8Valid line then
      match parseI64 line with
      | some len =>
        if len < -1 then .error .protocol
        else if len = -1 then .ok (some (.bulk none, headUsed))
        else
          let n := len.toNat
          if buf.length < headUsed + n + 2 then .ok none
          else if (buf.drop (headUsed + n)).take 2 = crlf then
            .ok (some (.bulk (some ((buf.drop headUsed).take n)), headUsed + n + 2))
          else .error .protocol
      | none => .error .protocol
    else .error .protocol

/-- The shared length-line head parse of `parse_array` / `parse_set` /
`parse_map` / `parse_push`. -/
def parseAggCore (buf : List Nat) : Except PErr (Option (Int × Nat)) :=
  match lineOf buf with
  | none => .ok none
  | some (line, used) =>
    if utf8Valid line then
      match parseI64 line with
      | some len => .ok (some (len, used))
      | none => .error .protocol
    else .error .protocol

/-- `parse_null` from `src/protocol/parser.rs`. -/
def parseNullB (buf : List Nat) : PResult :=
  if buf.length < 3 then .ok none
  else if buf.take 3 = [95, 13, 10] then .ok (some (.null, 3))
  else .error .protocol

/-- `parse_boolean` from `src/protocol/parser.rs`. -/
def parseBoolB (buf : List Nat) : PResult :=
  if buf.length < 4 then .ok none
  else if (buf.drop 1).take 3 = 116 :: crlf then .ok (some (.bool true, 4))
  else if (buf.drop 1).take 3 = 102 :: crlf then .ok (some (.bool false, 4))
  else .error .protocol

mutual

/-- `parse_frame` from `src/protocol/parser.rs`, fuel-indexed (fuel
strictly exceeds the total number of frames parsed; `parseFrame` supplies
it).  Dispatch on the type byte; the line-framed cases are the named
functions above, the aggregate cases recurse through the element loops. -/
def parseF : Nat → List Nat → PResult
  | 0, _ => .ok none
  | fuel + 1, buf =>
    match buf with
    | [] => .ok none
    | t :: _ =>
      if t = 43 then parseSimpleB buf
      else if t = 45 then parseErrB buf
      else if t = 58 then parseIntB buf
      else if t = 44 then parseDoubleB buf
      else if t = 36 then parseBulkB buf
      else if t = 42 then
        match parseAggCore buf with
        | .error e => .error e
        | .ok none => .ok none
        | .ok (some (len, headUsed)) =>
          if len = -1 then .ok (some (.array none, headUsed))
          else if len < 0 then .error .protocol
          else
            match parseElems fuel len.toNat (buf.drop headUsed) with
            | .error e => .error e
            | .ok none => .ok none
            | .ok (some (items, used)) => .ok (some (.array (some items), headUsed + used))
      else if t = 126 then
        match parseAggCore buf with
        | .error e => .error e
        | .ok none => .ok none
        | .ok (some (len, headUsed)) =>
          if len = -1 then .ok (some (.set none, headUsed))
          else if len < 0 then .error .protocol
          else
            match parseElems fuel len.toNat (buf.drop headUsed) with
            | .error e => .error e
            | .ok none => .ok none
            | .ok (some (items, used)) => .ok (some (.set (some items), headUsed + used))
      else if t = 37 then
        match parseAggCore buf with
        | .error e => .error e
        | .ok none => .ok none
        | .ok (some (len, headUsed)) =>
          if len = -1 then .ok (some (.map none, headUsed))
          else if len < 0 then .error .protocol
          else
            match parsePairs fuel len.toNat (buf.drop headUsed) with
            | .error e => .error e
            | .ok none => .ok none
            | .ok (some (items, used)) => .ok (some (.map (some items), headUsed + used))
      else if t = 62 then
        match parseAggCore buf with
        | .error e => .error e
        | .ok none => .ok none
        | .ok (some (len, headUsed)) =>
          if len < 0 then .error .protocol
          else
            match parseElems fuel len.toNat (buf.drop headUsed) with
            | .error e => .error e
            | .ok none => .ok none
            | .ok (some (items, used)) => .ok (some (.push items, headUsed + used))
      else if t = 95 then parseNullB buf
      else if t = 35 then parseBoolB buf
      else .error .protocol

/-- Element loop of `parse_array` / `parse_set` / `parse_push`: parses `n`
frames from the buffer, accumulating the consumed count. -/
def parseElems : Nat → Nat → List Nat → Except PErr (Option (List Resp × Nat))
  | 0, _, _ => .ok none
  | _ + 1, 0, _ => .ok (some ([], 0))
  | fuel + 1, n + 1, buf =>
    match parseF fuel buf with
    | .error e => .error e
    | .ok none => .ok none
    | .ok (some (f, used)) =>
      match parseElems fuel n (buf.drop used) with
      | .error e => .error e
      | .ok none => .ok none
      | .ok (some (fs, used2)) => .ok (some (f :: fs, used + used2))

/-- Entry loop of `parse_map`: parses `n` key/value frame pairs. -/
def parsePairs : Nat → Nat → List Nat → Except PErr (Option (List (Resp × Resp) × Nat))
  | 0, _, _ => .ok none
  | _ + 1, 0, _ => .ok (some ([], 0))
  | fuel + 1, n + 1, buf =>
    match parseF fuel buf with
    | .error e => .error e
    | .ok none => .ok none
    | .ok (some (k, usedK)) =>
      match parseF fuel (buf.drop usedK) with
      | .error e => .error e
      | .ok none => .ok none
      | .ok (some (v, usedV)) =>
        match parsePairs fuel n (buf.drop (usedK + usedV)) with
        | .error e => .error e
        | .ok none => .ok none
        | .ok (some (ps, used2)) => .ok (some ((k, v) :: ps, usedK + usedV + used2))

end

/-- `parse_frame` with its fuel discharged: a successfully parsed frame
consumes at least three bytes per nesting/element step, so `length + 1`
fuel never runs out on inputs the source accepts. -/
def parseFrame (buf : List Nat) : PResult := parseF (buf.length + 1) buf

/-! ## Append-only log replay — `src/persistence/aof.rs` -/

/-- `BufRead::read_line`: the bytes up to and including the first newline
(or the whole remainder), and the rest of the input. -/
def readLine : List Nat → List Nat × List Nat
  | [] => ([], [])
  | 10 :: rest => ([10], rest)
  | b :: rest =>
    let (l, r) := readLine rest
    (b :: l, r)

/-- Argument pairs of the `HSET` replay arm (`i` stepping by two). -/
def chunkPairs {α : Type} : List α → List (α × α)
  | a :: b :: rest => (a, b) :: chunkPairs rest
  | _ => []

/-- `replay_command` from `src/persistence/aof.rs`: applies one logged
command to the store.  The `SET` arm ignores any `EX`/`PX` arguments (the
source carries a TODO there); unknown commands are skipped.  `none` models
the panic of `zadd` on a NaN comparison. -/
def replayCommand (args : List Bytes) (db : Database) : Option Database :=
  match args with
  | [] => some db
  | cmdRaw :: rest =>
    let cmd := upper cmdRaw
    if cmd = asciiBytes "SET" ∧ 2 ≤ rest.length then
      some (db.set rest.head! (.str (rest.get! 1)))
    else if cmd = asciiBytes "DEL" ∧ 1 ≤ rest.length then
      some (db.del rest).1
    else if cmd = asciiBytes "LPUSH" ∧ 2 ≤ rest.length then
      some (db.lpush rest.head! rest.tail).1
    else if cmd = asciiBytes "RPUSH" ∧ 2 ≤ rest.length then
      some (db.rpush rest.head! rest.tail).1
    else if cmd = asciiBytes "LPOP" ∧ 1 ≤ rest.length then
      some (db.lpop rest.head!).1
    else if cmd = asciiBytes "RPOP" ∧ 1 ≤ rest.length then
      some (db.rpop rest.head!).1
    else if cmd = asciiBytes "SADD" ∧ 2 ≤ rest.length then
      some (db.sadd rest.head! rest.tail).1
    else if cmd = asciiBytes "SREM" ∧ 2 ≤ rest.length then
      some (db.srem rest.head! rest.tail).1
    else if cmd = asciiBytes "HSET" ∧ 3 ≤ rest.length ∧ (rest.length - 1) % 2 = 0 then
      some (db.hset rest.head! (chunkPairs rest.tail)).1
    else if cmd = asciiBytes "ZADD" ∧ 3 ≤ rest.length ∧ (rest.length - 1) % 2 = 0 then
      let members := (chunkPairs rest.tail).filterMap (fun p =>
        (parseF64 p.1).map (fun s => (p.2, s)))
      (db.zadd rest.head! members).map Prod.fst
    else if cmd = asciiBytes "ZREM" ∧ 2 ≤ rest.length then
      some (db.zrem rest.head! rest.tail).1
    else some db

/-- Inner argument loop of `replay_aof`: reads `n` length-prefixed
arguments; a malformed prefix or end of file breaks out early (leaving the
argument list short); `none` models an I/O error from `read_line` on
invalid UTF-8. -/
def readArgs : Nat → List Nat → Option (List Bytes × List Nat)
  | 0, buf => some ([], buf)
  | n + 1, buf =>
    if buf.isEmpty then some ([], buf)
    else
      let (lenLine, r1) := readLine buf
      if ¬ utf8Valid lenLine then none
      else
        let ll := trim lenLine
        if ll.head? ≠ some 36 then some ([], r1)
        else
          match parseU64 (ll.drop 1) with
          | none => some ([], r1)
          | some _ =>
            if r1.isEmpty then some ([], r1)
            else
              let (dataLine, r2) := readLine r1
              if ¬ utf8Valid dataLine then none
              else
                let data := trimEnd dataLine
                (readArgs n r2).map (fun p => (data :: p.1, p.2))

/-- Outer loop of `replay_aof`, fuel-driven (each iteration consumes at
least one input byte, so `input.length + 1` fuel suffices). -/
def replayLoop : Nat → List Nat → Database → Nat → Option (Database × Nat)
  | 0, _, _, _ => none
  | fuel + 1, buf, db, count =>
    if buf.isEmpty then some (db, count)
    else
      let (line, rest) := readLine buf
      if ¬ utf8Valid line then none
      else
        let l := trim line
        if l.head? ≠ some 42 then replayLoop fuel rest db count
        else
          match parseU64 (l.drop 1) with
          | none => replayLoop fuel rest db count
          | some numArgs =>
            match readArgs numArgs rest with
            | none => none
            | some (args, rest2) =>
              if args.length ≠ numArgs ∨ args.isEmpty then replayLoop fuel rest2 db count
              else
                match replayCommand args db with
                | none => none
                | some db2 => replayLoop fuel rest2 db2 (count + 1)

/-- `replay_aof` on a file content: streams entries into a database,
returning it with the applied-command count; `none` models an aborting
I/O error (or the NaN `zadd` panic). -/
def replayAof (input : List Nat) (db : Database) : Option (Database × Nat) :=
  replayLoop (input.length + 1) input db 0

/-! ## Command dispatcher — `src/command/mod.rs` -/

/-- `bulk_to_string`: a non-null bulk string whose bytes are valid UTF-8. -/
def bulkToString : Resp → Option Key
  | .bulk (some b) => if utf8Valid b then some b else none
  | _ => none

/-- `bulk_to_bytes`: a non-null bulk string, raw. -/
def bulkToBytes : Resp → Option Bytes
  | .bulk (some b) => some b
  | _ => none

/-- Error reply with an ASCII message. -/
def errFrame (s : String) : Resp := .err (asciiBytes s)

/-- The `ERR wrong number of arguments for '<name>'` reply. -/
def wrongArity (name : String) : Resp :=
  .err (asciiBytes "ERR wrong number of arguments for " ++ [39] ++ asciiBytes name ++ [39])

/-- The `WRONGTYPE` reply. -/
def wrongType : Resp :=
  errFrame "WRONGTYPE Operation against a key holding the wrong kind of value"

/-- The `ERR unknown command '<cmd>'` reply of `handle_array`. -/
def unknownCommand (cmd : List Nat) : Resp :=
  .err (asciiBytes "ERR unknown command " ++ [39] ++ cmd ++ [39])

/-- The `ERR invalid expire time in 'set'` reply. -/
def invalidExpire : Resp :=
  .err (asciiBytes "ERR invalid expire time in " ++ [39] ++ asciiBytes "set" ++ [39])

/-- Outcome of a handler: the reply, the updated store, and the argument
vectors handed to `AofWriter::append` (empty when no writer is
configured). -/
abbrev HandlerOut := Resp × Database × List (List Bytes)

/-- `handle_ping`. -/
def handlePing (args : List Resp) (db : Database) : HandlerOut :=
  if args.isEmpty then (.simple (asciiBytes "PONG"), db, [])
  else if args.length = 1 then
    match args.head! with
    | .bulk (some data) => (.bulk (some data), db, [])
    | _ => (errFrame "ERR PING expects bulk string", db, [])
  else (errFrame "ERR too many arguments for PING", db, [])

/-- `handle_echo`. -/
def handleEcho (args : List Resp) (db : Database) : HandlerOut :=
  if args.length ≠ 1 then (wrongArity "echo", db, [])
  else
    match args.head! with
    | .bulk (some data) => (.bulk (some data), db, [])
    | _ => (errFrame "ERR ECHO expects bulk string", db, [])

/-- Flag loop of `handle_set` (`EX <sec>` / `PX <ms>`), accumulating the
millisecond TTL and the canonical `PX` arguments for the log. -/
def setFlags (rest : List Resp) (ttl : Option Nat) (aofArgs : List Bytes) :
    Except Resp (Option Nat × List Bytes) :=
  match rest with
  | [] => .ok (ttl, aofArgs)
  | flagF :: rest2 =>
    match bulkToString flagF with
    | none => .error (errFrame "ERR syntax error")
    | some flagRaw =>
      let flag := upper flagRaw
      if flag = asciiBytes "EX" then
        match rest2 with
        | [] => .error (errFrame "ERR syntax error")
        | vF :: rest3 =>
          match (bulkToString vF).bind parseU64 with
          | some v =>
            if v > 0 then
              setFlags rest3 (some (v * 1000)) (aofArgs ++ [asciiBytes "PX", natDecimal (v * 1000)])
            else .error invalidExpire
          | none =>
            match bulkToString vF with
            | some _ => .error invalidExpire
            | none => .error (errFrame "ERR syntax error")
      else if flag = asciiBytes "PX" then
        match rest2 with
        | [] => .error (errFrame "ERR syntax error")
        | vF :: rest3 =>
          match (bulkToString vF).bind parseU64 with
          | some v =>
            if v > 0 then
              setFlags rest3 (some v) (aofArgs ++ [asciiBytes "PX", natDecimal v])
            else .error invalidExpire
          | none =>
            match bulkToString vF with
            | some _ => .error invalidExpire
            | none => .error (errFrame "ERR syntax error")
      else .error (errFrame "ERR syntax error")

/-- `handle_set`: `SET key value [EX s | PX ms]`; logs the canonical `PX`
form (value bytes pass through `String::from_utf8_lossy`). -/
def handleSet (args : List Resp) (db : Database) (now : Nat) (aofOn : Bool) : HandlerOut :=
  if args.length < 2 then (wrongArity "set", db, [])
  else
    match bulkToString args.head! with
    | none => (errFrame "ERR key must be bulk string", db, [])
    | some key =>
      match args.get! 1 with
      | .bulk (some valBytes) =>
        let aofArgs := [asciiBytes "SET", key, utf8Lossy valBytes]
        match setFlags (args.drop 2) none aofArgs with
        | .error e => (e, db, [])
        | .ok (ttl, finalArgs) =>
          let db2 :=
            match ttl with
            | some ms => db.set_with_expiry key (.str valBytes) ms now
            | none => db.set key (.str valBytes)
          (.simple (asciiBytes "OK"), db2, if aofOn then [finalArgs] else [])
      | _ => (errFrame "ERR value must be bulk string", db, [])

/-- `handle_get`. -/
def handleGet (args : List Resp) (db : Database) (now : Nat) : HandlerOut :=
  if args.length ≠ 1 then (wrongArity "get", db, [])
  else
    match bulkToString args.head! with
    | none => (errFrame "ERR key must be bulk string", db, [])
    | some key =>
      let (db2, v) := db.get key now
      match v with
      | some (.str b) => (.bulk (some b), db2, [])
      | some _ => (wrongType, db2, [])
      | none => (.bulk none, db2, [])

/-- Collect every argument as a key (`bulk_to_string` on each). -/
def collectKeys : List Resp → Option (List Key)
  | [] => some []
  | a :: rest => (bulkToString a).bind (fun k => (collectKeys rest).map (k :: ·))

/-- `handle_del`: logs `DEL key…` only when at least one key was
removed. -/
def handleDel (args : List Resp) (db : Database) (aofOn : Bool) : HandlerOut :=
  if args.isEmpty then (wrongArity "del", db, [])
  else
    match collectKeys args with
    | none => (errFrame "ERR key must be bulk string", db, [])
    | some keys =>
      let (db2, removed) := db.del keys
      (.int removed, db2,
        if removed > 0 ∧ aofOn then [asciiBytes "DEL" :: keys] else [])

/-- `handle_exists`. -/
def handleExists (args : List Resp) (db : Database) (now : Nat) : HandlerOut :=
  if args.isEmpty then (wrongArity "exists", db, [])
  else
    match collectKeys args with
    | none => (errFrame "ERR key must be bulk string", db, [])
    | some keys =>
      let (db2, n) := db.existsCount keys now
      (.int n, db2, [])

/-- `handle_ttl` (also `PTTL` via the `millis` flag): seconds are the
millisecond result divided by 1000, with `-1`/`-2` passed through. -/
def handleTtl (args : List Resp) (db : Database) (now : Nat) (millis : Bool) : HandlerOut :=
  if args.length ≠ 1 then (wrongArity (if millis then "pttl" else "ttl"), db, [])
  else
    match bulkToString args.head! with
    | none => (errFrame "ERR key must be bulk string", db, [])
    | some key =>
      let (db2, ms) := db.ttl_millis key now
      if millis then (.int ms, db2, [])
      else if ms = -2 ∨ ms = -1 then (.int ms, db2, [])
      else (.int (Int.tdiv ms 1000), db2, [])

/-- Collect value/member arguments as raw bytes together with their
`from_utf8_lossy` renderings for the log. -/
def collectVals : List Resp → Option (List Bytes × List Bytes)
  | [] => some ([], [])
  | a :: rest =>
    (bulkToBytes a).bind (fun b =>
      (collectVals rest).map (fun p => (b :: p.1, utf8Lossy b :: p.2)))

/-- `handle_lpush` (the log entry is written whenever a writer is
configured). -/
def handleLpush (args : List Resp) (db : Database) (aofOn : Bool) : HandlerOut :=
  if args.length < 2 then (wrongArity "lpush", db, [])
  else
    match bulkToString args.head! with
    | none => (errFrame "ERR key must be bulk string", db, [])
    | some key =>
      match collectVals args.tail with
      | none => (errFrame "ERR value must be bulk string", db, [])
      | some (values, valStrs) =>
        if ¬ db.is_type key (asciiBytes "list") then (wrongType, db, [])
        else
          let (db2, len) := db.lpush key values
          (.int len, db2, if aofOn then [asciiBytes "LPUSH" :: key :: valStrs] else [])

/-- `handle_rpush`. -/
def handleRpush (args : List Resp) (db : Database) (aofOn : Bool) : HandlerOut :=
  if args.length < 2 then (wrongArity "rpush", db, [])
  else
    match bulkToString args.head! with
    | none => (errFrame "ERR key must be bulk string", db, [])
    | some key =>
      match collectVals args.tail with
      | none => (errFrame "ERR value must be bulk string", db, [])
      | some (values, valStrs) =>
        if ¬ db.is_type key (asciiBytes "list") then (wrongType, db, [])
        else
          let (db2, len) := db.rpush key values
          (.int len, db2, if aofOn then [asciiBytes "RPUSH" :: key :: valStrs] else [])

/-- Pop loop of the count-ful `LPOP`/`RPOP` (stops early when the deque
empties). -/
def popLoop (pop : Database → Key → Database × Option Bytes) (key : Key) :
    Nat → Database → Database × List Bytes
  | 0, db => (db, [])
  | n + 1, db =>
    match pop db key with
    | (db2, some b) =>
      let (db3, items) := popLoop pop key n db2
      (db3, b :: items)
    | (db2, none) => (db2, [])

/-- `handle_lpop` / `handle_rpop` share this shape (`front` chooses the
end): optional count, one log entry per item actually popped. -/
def handlePop (front : Bool) (name : String) (args : List Resp) (db : Database) (aofOn : Bool) :
    HandlerOut :=
  if args.isEmpty ∨ args.length > 2 then (wrongArity name, db, [])
  else
    match bulkToString args.head! with
    | none => (errFrame "ERR key must be bulk string", db, [])
    | some key =>
      let pop := fun (d : Database) (k : Key) => if front then d.lpop k else d.rpop k
      let logName := asciiBytes (if front then "LPOP" else "RPOP")
      let countArg : Option (Option Nat) :=
        if args.length = 2 then
          match (bulkToString (args.get! 1)).bind parseU64 with
          | some n => some (some n)
          | none => none
        else some none
      match countArg with
      | none => (errFrame "ERR value is not an integer or out of range", db, [])
      | some parsedCount =>
        if ¬ db.is_type key (asciiBytes "list") then (wrongType, db, [])
        else
          match parsedCount with
          | none =>
            match pop db key with
            | (db2, some b) =>
              (.bulk (some b), db2, if aofOn then [[logName, key]] else [])
            | (db2, none) => (.bulk none, db2, [])
          | some n =>
            let (db2, items) := popLoop pop key n db
            (.array (some (items.map (fun b => Resp.bulk (some b)))), db2,
              if items.length > 0 ∧ aofOn then List.replicate items.length [logName, key] else [])

/-- `handle_lrange`. -/
def handleLrange (args : List Resp) (db : Database) : HandlerOut :=
  if args.length ≠ 3 then (wrongArity "lrange", db, [])
  else
    match bulkToString args.head! with
    | none => (errFrame "ERR key must be bulk string", db, [])
    | some key =>
      match (bulkToString (args.get! 1)).bind parseI64 with
      | none => (errFrame "ERR value is not an integer or out of range", db, [])
      | some start =>
        match (bulkToString (args.get! 2)).bind parseI64 with
        | none => (errFrame "ERR value is not an integer or out of range", db, [])
        | some stop =>
          if ¬ db.is_type key (asciiBytes "list") then (wrongType, db, [])
          else
            let items := db.lrange key start stop
            (.array (some (items.map (fun b => Resp.bulk (some b)))), db, [])

/-- `handle_sadd`: logs only when at least one member was added. -/
def handleSadd (args : List Resp) (db : Database) (aofOn : Bool) : HandlerOut :=
  if args.length < 2 then (wrongArity "sadd", db, [])
  else
    match bulkToString args.head! with
    | none => (errFrame "ERR key must be bulk string", db, [])
    | some key =>
      match collectVals args.tail with
      | none => (errFrame "ERR member must be bulk string", db, [])
      | some (members, memStrs) =>
        if ¬ db.is_type key (asciiBytes "set") then (wrongType, db, [])
        else
          let (db2, added) := db.sadd key members
          (.int added, db2,
            if added > 0 ∧ aofOn then [asciiBytes "SADD" :: key :: memStrs] else [])

/-- `handle_srem`: logs only when at least one member was removed. -/
def handleSrem (args : List Resp) (db : Database) (aofOn : Bool) : HandlerOut :=
  if args.length < 2 then (wrongArity "srem", db, [])
  else
    match bulkToString args.head! with
    | none => (errFrame "ERR key must be bulk string", db, [])
    | some key =>
      match collectVals args.tail with
      | none => (errFrame "ERR member must be bulk string", db, [])
      | some (members, memStrs) =>
        if ¬ db.is_type key (asciiBytes "set") then (wrongType, db, [])
        else
          let (db2, removed) := db.srem key members
          (.int removed, db2,
            if removed > 0 ∧ aofOn then [asciiBytes "SREM" :: key :: memStrs] else [])

/-- `handle_smembers` (read-only). -/
def handleSmembers (args : List Resp) (db : Database) : HandlerOut :=
  if args.length ≠ 1 then (wrongArity "smembers", db, [])
  else
    match bulkToString args.head! with
    | none => (errFrame "ERR key must be bulk string", db, [])
    | some key =>
      if ¬ db.is_type key (asciiBytes "set") then (wrongType, db, [])
      else
        (.array (some ((db.smembers key).map (fun b => Resp.bulk (some b)))), db, [])

/-- Field/value pair collection of `handle_hset`, with the lossy log
renderings. -/
def collectFieldPairs : List Resp → Option (List (Bytes × Bytes) × List Bytes)
  | [] => some ([], [])
  | [_] => some ([], [])
  | f :: v :: rest =>
    match bulkToBytes f, bulkToBytes v with
    | some fb, some vb =>
      (collectFieldPairs rest).map (fun p =>
        ((fb, vb) :: p.1, utf8Lossy fb :: utf8Lossy vb :: p.2))
    | _, _ => none

/-- `handle_hset` (the log entry is written whenever a writer is
configured). -/
def handleHset (args : List Resp) (db : Database) (aofOn : Bool) : HandlerOut :=
  if args.length < 3 ∨ (args.length - 1) % 2 ≠ 0 then (wrongArity "hset", db, [])
  else
    match bulkToString args.head! with
    | none => (errFrame "ERR key must be bulk string", db, [])
    | some key =>
      match collectFieldPairs args.tail with
      | none => (errFrame "ERR field must be bulk string", db, [])
      | some (fields, fieldStrs) =>
        if ¬ db.is_type key (asciiBytes "hash") then (wrongType, db, [])
        else
          let (db2, added) := db.hset key fields
          (.int added, db2, if aofOn then [asciiBytes "HSET" :: key :: fieldStrs] else [])

/-- `handle_hget` (read-only). -/
def handleHget (args : List Resp) (db : Database) : HandlerOut :=
  if args.length ≠ 2 then (wrongArity "hget", db, [])
  else
    match bulkToString args.head! with
    | none => (errFrame "ERR key must be bulk string", db, [])
    | some key =>
      match bulkToBytes (args.get! 1) with
      | none => (errFrame "ERR field must be bulk string", db, [])
      | some field =>
        if ¬ db.is_type key (asciiBytes "hash") then (wrongType, db, [])
        else
          match db.hget key field with
          | some b => (.bulk (some b), db, [])
          | none => (.bulk none, db, [])

/-- `handle_hgetall` (read-only). -/
def handleHgetall (args : List Resp) (db : Database) : HandlerOut :=
  if args.length ≠ 1 then (wrongArity "hgetall", db, [])
  else
    match bulkToString args.head! with
    | none => (errFrame "ERR key must be bulk string", db, [])
    | some key =>
      if ¬ db.is_type key (asciiBytes "hash") then (wrongType, db, [])
      else
        let pairs := db.hgetall key
        (.array (some (pairs.flatMap (fun p => [Resp.bulk (some p.1), Resp.bulk (some p.2)]))),
          db, [])

/-- `handle_array` from `src/command/mod.rs`: the dispatch table.  Exactly
the nineteen commands below are routed; everything else — including
`LLEN`, `ZADD`, `ZRANGE`, `ZSCORE`, `ZRANK`, `ZCARD`, `ZREM`, `ZCOUNT`,
whose handlers exist in `src/command/list.rs` / `src/command/zset.rs` but
are not declared as modules — falls to the unknown-command reply. -/
def handleArray (items : List Resp) (db : Database) (now : Nat) (aofOn : Bool) : HandlerOut :=
  match items with
  | [] => (errFrame "ERR empty command", db, [])
  | cmdFrame :: args =>
    match bulkToString cmdFrame with
    | none => (errFrame "ERR command must be bulk string", db, [])
    | some cmd =>
      let c := upper cmd
      if c = asciiBytes "PING" then handlePing args db
      else if c = asciiBytes "ECHO" then handleEcho args db
      else if c = asciiBytes "SET" then handleSet args db now aofOn
      else if c = asciiBytes "GET" then handleGet args db now
      else if c = asciiBytes "DEL" then handleDel args db aofOn
      else if c = asciiBytes "EXISTS" then handleExists args db now
      else if c = asciiBytes "TTL" then handleTtl args db now false
      else if c = asciiBytes "PTTL" then handleTtl args db now true
      else if c = asciiBytes "LPUSH" then handleLpush args db aofOn
      else if c = asciiBytes "RPUSH" then handleRpush args db aofOn
      else if c = asciiBytes "LPOP" then handlePop true "lpop" args db aofOn
      else if c = asciiBytes "RPOP" then handlePop false "rpop" args db aofOn
      else if c = asciiBytes "LRANGE" then handleLrange args db
      else if c = asciiBytes "SADD" then handleSadd args db aofOn
      else if c = asciiBytes "SREM" then handleSrem args db aofOn
      else if c = asciiBytes "SMEMBERS" then handleSmembers args db
      else if c = asciiBytes "HSET" then handleHset args db aofOn
      else if c = asciiBytes "HGET" then handleHget args db
      else if c = asciiBytes "HGETALL" then handleHgetall args db
      else (unknownCommand cmd, db, [])

/-- `dispatch` from `src/command/mod.rs`. -/
def dispatch (frame : Resp) (db : Database) (now : Nat) (aofOn : Bool) : HandlerOut :=
  match frame with
  | .array (some items) => handleArray items db now aofOn
  | _ => (errFrame "ERR expected array", db, [])

/-- File content appended by `AofWriter::append` for a list of logged
entries (each a wire-encoded array of bulk strings, concatenated). -/
def aofBytes (entries : List (List Bytes)) : List Nat :=
  (entries.map aofEncode).flatten

/-! ## Claim-level specification definitions (from the spec text, for
comparison with the source translations above) -/

/-- The range semantics as the spec states them: a negative index `i`
denotes position `len + i`; out-of-range indices clamp (the start into
`[0, len]`, the stop into `[0, len-1]`, reading "clamp" directionally as
the slice bounds require); an effective start beyond the effective stop
yields the empty list; otherwise the inclusive slice. -/
def lrangeClaim (l : List Bytes) (start stop : Int) : List Bytes :=
  let len : Int := l.length
  let s0 : Int := if start < 0 then len + start else start
  let e0 : Int := if stop < 0 then len + stop else stop
  let s : Int := min (max s0 0) len
  let e : Int := min (max e0 0) (len - 1)
  if s > e then [] else (l.drop s.toNat).take (e - s + 1).toNat

/-- Well-formed frames for the codec round-trip: simple-string and error
payloads are valid UTF-8 free of CR and LF, integers and lengths fit the
source's 64-bit parses, and no `Double` occurs (its text round-trip is a
property of binary floating point outside this embedding — and NaN
genuinely breaks it). -/
inductive Good : Resp → Prop where
  | simple (s : List Nat) :
      13 ∉ s → 10 ∉ s → utf8Valid s = true → Good (.simple s)
  | err (s : List Nat) :
      13 ∉ s → 10 ∉ s → utf8Valid s = true → Good (.err s)
  | int (i : Int) : -(2 ^ 63) ≤ i → i < 2 ^ 63 → Good (.int i)
  | bool (b : Bool) : Good (.bool b)
  | null : Good .null
  | bulkNone : Good (.bulk none)
  | bulkSome (b : Bytes) : b.length < 2 ^ 63 → Good (.bulk (some b))
  | arrayNone : Good (.array none)
  | arraySome (l : List Resp) :
      l.length < 2 ^ 63 → (∀ f ∈ l, Good f) → Good (.array (some l))
  | setNone : Good (.set none)
  | setSome (l : List Resp) :
      l.length < 2 ^ 63 → (∀ f ∈ l, Good f) → Good (.set (some l))
  | mapNone : Good (.map none)
  | mapSome (l : List (Resp × Resp)) :
      l.length < 2 ^ 63 → (∀ p ∈ l, Good p.1) → (∀ p ∈ l, Good p.2) →
      Good (.map (some l))
  | push (l : List Resp) :
      l.length < 2 ^ 63 → (∀ f ∈ l, Good f) → Good (.push l)

/-- A container value that may legally sit in the keyspace: byte strings
always, containers only when non-empty (spec §3 invariant). -/
def containerOk : Value → Prop
  | .str _ => True
  | .list l => l ≠ []
  | .set s => s ≠ []
  | .hash h => h ≠ []
  | .zset z => z ≠ []

/-- The keyspace invariant of spec §3: no key maps to an empty
container. -/
def noEmpty (db : Database) : Prop :=
  ∀ k v, aGet db.data k = some v → containerOk v

/-! # Theorems -/

/-! ## Basic association-list lemmas -/

theorem aGet_map_replace {α : Type} (m : List (Key × α)) (k : Key) (v : α)
    (h : (m.find? (fun p => p.1 = k)).isSome) :
    aGet (m.map (fun p => if p.1 = k then (k, v) else p)) k = some v := by
  induction m with
  | nil => simp at h
  | cons q rest ih =>
    by_cases hq : q.1 = k
    · simp [aGet, List.find?_cons, hq]
    · rw [List.find?_cons_of_neg _ (by simpa using hq)] at h
      simp only [List.map_cons, if_neg hq]
      unfold aGet
      rw [List.find?_cons_of_neg _ (by simpa using hq)]
      exact ih h

theorem aGet_aInsert_self {α : Type} (m : List (Key × α)) (k : Key) (v : α) :
    aGet (aInsert m k v) k = some v := by
  unfold aInsert
  rcases hf : m.find? (fun p => p.1 = k) with _ | p
  · rw [hf]
    unfold aGet
    rw [List.find?_append]
    simp [hf, aGet]
  · rw [hf]
    exact aGet_map_replace m k v (by simp [hf])

theorem aGet_map_replace_ne {α : Type} (m : List (Key × α)) (k k' : Key) (v : α)
    (h : k' ≠ k) :
    aGet (m.map (fun p => if p.1 = k then (k, v) else p)) k' = aGet m k' := by
  induction m with
  | nil => simp [aGet]
  | cons q rest ih =>
    by_cases hq : q.1 = k
    · have hq' : ¬ (q.1 = k') := by rw [hq]; exact Ne.symm h
      simp only [List.map_cons, if_pos hq]
      unfold aGet
      rw [List.find?_cons_of_neg _ (by simpa using Ne.symm h),
        List.find?_cons_of_neg _ (by simpa using hq')]
      exact ih
    · simp only [List.map_cons, if_neg hq]
      by_cases hq' : q.1 = k'
      · unfold aGet
        rw [List.find?_cons_of_pos _ (by simpa using hq'),
          List.find?_cons_of_pos _ (by simpa using hq')]
      · unfold aGet
        rw [List.find?_cons_of_neg _ (by simpa using hq'),
          List.find?_cons_of_neg _ (by simpa using hq')]
        exact ih

theorem aGet_aInsert_ne {α : Type} (m : List (Key × α)) (k k' : Key) (v : α) (h : k' ≠ k) :
    aGet (aInsert m k v) k' = aGet m k' := by
  unfold aInsert
  rcases hf : m.find? (fun p => p.1 = k) with _ | p
  · rw [hf]
    unfold aGet
    rw [List.find?_append]
    rcases hm : m.find? (fun p => (p.1 = k' : Bool)) with _ | q
    · simp [hm, Ne.symm h]
    · simp [hm]
  · rw [hf]
    exact aGet_map_replace_ne m k k' v h

theorem aGet_aRemove_self {α : Type} (m : List (Key × α)) (k : Key) :
    aGet (aRemove m k) k = none := by
  unfold aGet aRemove
  induction m with
  | nil => simp
  | cons q rest ih =>
    by_cases hq : q.1 = k
    · simpa [List.filter_cons, hq] using ih
    · simpa [List.filter_cons, hq, List.find?_cons_of_neg, hq] using ih

theorem aGet_aRemove_ne {α : Type} (m : List (Key × α)) (k k' : Key) (h : k' ≠ k) :
    aGet (aRemove m k) k' = aGet m k' := by
  unfold aGet aRemove
  induction m with
  | nil => simp
  | cons q rest ih =>
    by_cases hq : q.1 = k
    · have hq' : ¬ (q.1 = k') := by rw [hq]; exact Ne.symm h
      rw [List.filter_cons_of_neg (by simpa using hq),
        List.find?_cons_of_neg _ (by simpa using hq')]
      exact ih
    · by_cases hq' : q.1 = k'
      · rw [List.filter_cons_of_pos (by simpa using hq),
          List.find?_cons_of_pos _ (by simpa using hq'),
          List.find?_cons_of_pos _ (by simpa using hq')]
      · rw [List.filter_cons_of_pos (by simpa using hq),
          List.find?_cons_of_neg _ (by simpa using hq'),
          List.find?_cons_of_neg _ (by simpa using hq')]
        exact ih

/-! ## Concrete evaluations deciding the persistence and dispatch claims -/

/-- C1: the append-only log round-trip fails on the code.  With the log
enabled, dispatching `SET k "v "` (value with a trailing space) against
the empty keyspace stores the two bytes `v ` and logs the entry; replaying
the produced log file yields the one-byte value `v`, because
`replay_aof` reads the self-delimiting frames line-wise and strips
trailing whitespace from every argument (`read_line` + `trim_end`),
ignoring the recorded length prefix.  So the replayed keyspace differs
from the original in the element bytes themselves — not merely in
deadline drift. -/
theorem C1_replay_not_roundtrip_trailing_space :
    (handleSet [Resp.bulk (some (asciiBytes "k")), Resp.bulk (some (asciiBytes "v "))]
        Database.empty 0 true).2.1.data
      = [(asciiBytes "k", Value.str (asciiBytes "v "))] ∧
    replayAof
        (aofBytes (handleSet [Resp.bulk (some (asciiBytes "k")),
          Resp.bulk (some (asciiBytes "v "))] Database.empty 0 true).2.2)
        Database.empty
      = some (⟨[(asciiBytes "k", Value.str (asciiBytes "v"))], Expiry.empty⟩, 1) ∧
    asciiBytes "v " ≠ asciiBytes "v" :=
  ⟨rfl, rfl, by decide⟩

/-- C3: the dispatcher does not route the sorted-set commands or `LLEN`;
`handle_array` falls through to the unknown-command reply for them (their
handlers exist in `src/command/zset.rs` / `src/command/list.rs` but are
never reached), while the spec lists them in the minimum command set. -/
theorem C3_dispatcher_lacks_zset_and_llen :
    (handleArray [Resp.bulk (some (asciiBytes "ZADD")), Resp.bulk (some (asciiBytes "myzset")),
        Resp.bulk (some (asciiBytes "1.0")), Resp.bulk (some (asciiBytes "one"))]
        Database.empty 0 false).1
      = unknownCommand (asciiBytes "ZADD") ∧
    (handleArray [Resp.bulk (some (asciiBytes "LLEN")), Resp.bulk (some (asciiBytes "mylist"))]
        Database.empty 0 false).1
      = unknownCommand (asciiBytes "LLEN") :=
  ⟨rfl, rfl⟩

/-- C6: the failing input for the expiry-preserving replay claim.
Replaying the logged entry `SET temp val PX 500` installs the value but no
deadline at all: the `SET` arm of `replay_command` ignores everything
after the value (the source carries a `TODO` for `EX`/`PX`), and
`Database::set` clears any prior deadline. -/
theorem C6_replay_set_px_installs_no_deadline :
    ∃ db2,
      replayCommand [asciiBytes "SET", asciiBytes "temp", asciiBytes "val",
          asciiBytes "PX", asciiBytes "500"] Database.empty = some db2 ∧
      aGet db2.data (asciiBytes "temp") = some (.str (asciiBytes "val")) ∧
      db2.expiry.get_deadline (asciiBytes "temp") = none ∧
      db2.expiry.heap = [] :=
  ⟨_, rfl, rfl, rfl, rfl⟩

/-- C8 counterexample: the replay `ZADD` arm with an unparsable score
(`ZADD x abc m`) parses zero member pairs yet still calls `zadd`, whose
`entry(..).or_insert_with` installs an empty ranked set — a key bound to
an empty container survives the operation, violating the invariant as
claimed. -/
theorem C8_counterexample_replay_zadd_installs_empty :
    ∃ db2,
      replayCommand [asciiBytes "ZADD", asciiBytes "x", asciiBytes "abc", asciiBytes "m"]
          Database.empty = some db2 ∧
      aGet db2.data (asciiBytes "x") = some (.zset []) ∧
      ¬ noEmpty db2 :=
  ⟨_, rfl, rfl, fun h => (h (asciiBytes "x") (.zset []) rfl) rfl⟩

/-- C10 counterexample: the replay `ZADD` arm parses scores with a plain
`f64` parse, which accepts `inf` and `nan`; so a non-finite score reaches
the store (first conjunct), and a NaN score among two members makes the
re-sort comparison fail — the `unwrap` panic modelled by `none` (second
conjunct). -/
theorem C10_counterexample_replay_zadd_accepts_nonfinite :
    (∃ db2,
      replayCommand [asciiBytes "ZADD", asciiBytes "k", asciiBytes "inf", asciiBytes "m"]
          Database.empty = some db2 ∧
      aGet db2.data (asciiBytes "k") = some (.zset [(asciiBytes "m", F64.inf)]) ∧
      F64.isFinite F64.inf = false) ∧
    replayCommand [asciiBytes "ZADD", asciiBytes "k", asciiBytes "nan", asciiBytes "a",
        asciiBytes "1", asciiBytes "b"] Database.empty = none :=
  ⟨⟨_, rfl, rfl, rfl⟩, rfl⟩

/-- C4 counterexample: `Database::is_type` performs no expiry check.  A
key stored with deadline 5 is expired at any instant from 5 on, yet
`is_type` still reports its stored string shape: a `SMEMBERS` on it after
expiry replies `WRONGTYPE` instead of treating the key as absent (an
absent key is compatible with every shape, last conjunct). -/
theorem C4_counterexample_is_type_ignores_expiry :
    (Database.set_with_expiry Database.empty (asciiBytes "k") (.str (asciiBytes "v"))
        5 0).expiry.get_deadline (asciiBytes "k") = some 5 ∧
    (5 : Nat) ≤ 10 ∧
    Database.is_type
        (Database.set_with_expiry Database.empty (asciiBytes "k") (.str (asciiBytes "v")) 5 0)
        (asciiBytes "k") (asciiBytes "set") = false ∧
    Database.is_type Database.empty (asciiBytes "k") (asciiBytes "set") = true :=
  ⟨rfl, by decide, rfl, rfl⟩

/-- C5 counterexample: `Database::lpop` removes an emptied key from the
data map but leaves its deadline in the expiry map, so after the
operation a key absent from the data map still retains a deadline —
contradicting the claim that the empties-means-delete removals also
remove the deadline. -/
theorem C5_counterexample_lpop_retains_deadline :
    aGet ((Database.set_with_expiry Database.empty (asciiBytes "k")
        (.list [asciiBytes "v"]) 100 0).lpop (asciiBytes "k")).1.data (asciiBytes "k")
      = none ∧
    ((Database.set_with_expiry Database.empty (asciiBytes "k")
        (.list [asciiBytes "v"]) 100 0).lpop (asciiBytes "k")).1.expiry.get_deadline
        (asciiBytes "k")
      = some 100 :=
  ⟨rfl, rfl⟩

/-- C2 counterexample: both round-trip directions fail as universally
stated.  Encoding the simple-string frame whose payload is the two bytes
CR LF and decoding the result yields the empty simple string after three
consumed bytes (a different frame, not all emitted bytes); and the
well-formed input `:+5` CRLF decodes fully to the integer 5 but
re-encodes as `:5` CRLF, not byte-for-byte.  (`encodeF 10 f` is
`encode_frame` at any sufficient fuel; `10` exceeds `sizeOf` of both
frames.) -/
theorem C2_counterexample_roundtrip_fails :
    (parseFrame (encodeF 10 (Resp.simple [13, 10])) = .ok (some (.simple [], 3)) ∧
      Resp.simple [] ≠ Resp.simple [13, 10] ∧
      (encodeF 10 (Resp.simple [13, 10])).length = 5) ∧
    (parseFrame (asciiBytes ":+5" ++ crlf) = .ok (some (.int 5, 5)) ∧
      (asciiBytes ":+5" ++ crlf).length = 5 ∧
      encodeF 10 (Resp.int 5) ≠ asciiBytes ":+5" ++ crlf) :=
  ⟨⟨rfl, by simp, rfl⟩, ⟨rfl, rfl, by decide⟩⟩

/-! ## C4 (amended): the three operations that do check expiry -/

theorem is_expired_of_deadline (db : Database) (k : Key) (now d : Nat)
    (hd : db.expiry.get_deadline k = some d) (hle : d ≤ now) :
    db.expiry.is_expired k now = true := by
  unfold Expiry.get_deadline at hd
  unfold Expiry.is_expired
  rw [hd]
  simpa using hle

/-- C4 (amended): of the read/type-check operations, exactly `get`,
`exists` and `ttl_millis` perform the lazy expiry: on a key whose deadline
is at or before `now` each of them removes the entry from the data map and
the index record from the deadline map before producing its
absent-result. -/
theorem C4_amended_lazy_expiry_get_exists_ttl (db : Database) (k : Key) (now d : Nat)
    (hd : db.expiry.get_deadline k = some d) (hle : d ≤ now) :
    db.get k now = (⟨aRemove db.data k, db.expiry.remove k⟩, none) ∧
    db.ttl_millis k now = (⟨aRemove db.data k, db.expiry.remove k⟩, -2) ∧
    db.existsCount [k] now = (⟨aRemove db.data k, db.expiry.remove k⟩, 0) ∧
    aGet (aRemove db.data k) k = none ∧
    (db.expiry.remove k).get_deadline k = none := by
  have hexp := is_expired_of_deadline db k now d hd hle
  refine ⟨?_, ?_, ?_, ?_, ?_⟩
  · unfold Database.get
    rw [hexp]
    simp
  · unfold Database.ttl_millis
    rw [hexp]
    simp
  · unfold Database.existsCount
    rw [hexp]
    simp [Database.existsCount]
  · exact aGet_aRemove_self db.data k
  · unfold Expiry.remove Expiry.get_deadline
    exact aGet_aRemove_self db.expiry.deadlines k

/-- Witness for the C4 amendment at a concrete expired key. -/
theorem C4_amended_lazy_expiry_witness :
    ((Database.set_with_expiry Database.empty (asciiBytes "k") (.str (asciiBytes "v"))
        5 0).get (asciiBytes "k") 10).2 = none :=
  congrArg Prod.snd
    (C4_amended_lazy_expiry_get_exists_ttl
      (Database.set_with_expiry Database.empty (asciiBytes "k") (.str (asciiBytes "v")) 5 0)
      (asciiBytes "k") 10 5 rfl (by decide)).1

/-! ## C5 (amended): which removals clear deadlines -/

theorem del_cons (db : Database) (k2 : Key) (rest : List Key) :
    Database.del db (k2 :: rest) =
      if (aGet db.data k2).isSome then
        ((Database.del ⟨aRemove db.data k2, db.expiry.remove k2⟩ rest).1,
          (Database.del ⟨aRemove db.data k2, db.expiry.remove k2⟩ rest).2 + 1)
      else Database.del db rest := by
  rw [Database.del]

theorem del_deadline_none (db : Database) (keys : List Key) (k : Key)
    (h : db.expiry.get_deadline k = none) :
    (db.del keys).1.expiry.get_deadline k = none := by
  induction keys generalizing db with
  | nil => exact h
  | cons k2 rest ih =>
    rw [del_cons]
    by_cases hp : (aGet db.data k2).isSome
    · rw [if_pos hp]
      refine ih _ ?_
      show aGet (aRemove db.expiry.deadlines k2) k = none
      by_cases hk : k = k2
      · subst hk; exact aGet_aRemove_self _ _
      · rw [aGet_aRemove_ne _ _ _ hk]; exact h
    · rw [if_neg hp]
      exact ih db h

theorem del_removes_deadline (db : Database) (keys : List Key) (k : Key)
    (hmem : k ∈ keys) (hpres : (aGet db.data k).isSome = true) :
    (db.del keys).1.expiry.get_deadline k = none := by
  induction keys generalizing db with
  | nil => cases hmem
  | cons k2 rest ih =>
    rw [del_cons]
    by_cases hk : k = k2
    · subst hk
      rw [if_pos hpres]
      refine del_deadline_none _ rest k ?_
      show aGet (aRemove db.expiry.deadlines k) k = none
      exact aGet_aRemove_self _ _
    · have hmem2 : k ∈ rest := by
        rcases List.mem_cons.mp hmem with h | h
        · exact absurd h hk
        · exact h
      by_cases hp2 : (aGet db.data k2).isSome
      · rw [if_pos hp2]
        refine ih _ hmem2 ?_
        show (aGet (aRemove db.data k2) k).isSome = true
        rw [aGet_aRemove_ne _ _ _ hk]
        exact hpres
      · rw [if_neg hp2]
        exact ih db hmem2 hpres

theorem drainLoop_cons (now d : Nat) (k2 : Key) (rest : List (Nat × Key))
    (dl : List (Key × Nat)) :
    drainLoop now ((d, k2) :: rest) dl =
      if now < d then ([], (d, k2) :: rest, dl)
      else
        match aGet dl k2 with
        | some cur =>
          if cur = d then
            ((k2 :: (drainLoop now rest (aRemove dl k2)).1),
              (drainLoop now rest (aRemove dl k2)).2.1,
              (drainLoop now rest (aRemove dl k2)).2.2)
          else drainLoop now rest dl
        | none => drainLoop now rest dl := by
  rw [drainLoop]

theorem drainLoop_deadline_none (now : Nat) (h : List (Nat × Key)) (dl : List (Key × Nat))
    (k : Key) (hnone : aGet dl k = none) :
    aGet (drainLoop now h dl).2.2 k = none := by
  induction h generalizing dl with
  | nil => exact hnone
  | cons p rest ih =>
    obtain ⟨d, k2⟩ := p
    rw [drainLoop_cons]
    by_cases hlt : now < d
    · rw [if_pos hlt]; exact hnone
    · rw [if_neg hlt]
      rcases hget : aGet dl k2 with _ | cur
      · exact ih dl hnone
      · dsimp only
        by_cases hcur : cur = d
        · rw [if_pos hcur]
          refine ih (aRemove dl k2) ?_
          by_cases hk : k = k2
          · subst hk; exact aGet_aRemove_self _ _
          · rw [aGet_aRemove_ne _ _ _ hk]; exact hnone
        · rw [if_neg hcur]
          exact ih dl hnone

theorem drainLoop_emitted_deadline_none (now : Nat) (h : List (Nat × Key))
    (dl : List (Key × Nat)) (k : Key) (hmem : k ∈ (drainLoop now h dl).1) :
    aGet (drainLoop now h dl).2.2 k = none := by
  induction h generalizing dl with
  | nil => cases hmem
  | cons p rest ih =>
    obtain ⟨d, k2⟩ := p
    rw [drainLoop_cons] at hmem ⊢
    by_cases hlt : now < d
    · rw [if_pos hlt] at hmem; cases hmem
    · rw [if_neg hlt] at hmem ⊢
      rcases hget : aGet dl k2 with _ | cur
      · rw [hget] at hmem
        exact ih dl hmem
      · rw [hget] at hmem
        dsimp only at hmem ⊢
        by_cases hcur : cur = d
        · rw [if_pos hcur] at hmem ⊢
          simp only at hmem ⊢
          rcases List.mem_cons.mp hmem with hk | hk
          · subst hk
            exact drainLoop_deadline_none now rest (aRemove dl k) k
              (aGet_aRemove_self _ _)
          · exact ih (aRemove dl k2) hk
        · rw [if_neg hcur] at hmem ⊢
          exact ih dl hmem

/-- C5 (amended): `del` and the periodic eviction clear the deadline of
every key they remove from the data map, while the empties-means-delete
removals (`lpop`, `rpop`, `srem`, `zrem`) leave the expiry index
completely untouched — they remove the key from the data map only. -/
theorem C5_amended_deadline_removal (db : Database) (keys : List Key) (k k2 : Key)
    (ms : List Bytes) (now : Nat)
    (hmem : k ∈ keys) (hpres : (aGet db.data k).isSome = true) :
    (db.del keys).1.expiry.get_deadline k = none ∧
    (∀ k3, k3 ∈ (db.expiry.drain_expired now).1 →
      (db.evict_expired now).1.expiry.get_deadline k3 = none) ∧
    (db.lpop k2).1.expiry = db.expiry ∧
    (db.rpop k2).1.expiry = db.expiry ∧
    (db.srem k2 ms).1.expiry = db.expiry ∧
    (db.zrem k2 ms).1.expiry = db.expiry := by
  refine ⟨del_removes_deadline db keys k hmem hpres, ?_, ?_, ?_, ?_, ?_⟩
  · intro k3 hk3
    unfold Database.evict_expired
    unfold Expiry.drain_expired at *
    rcases hres : drainLoop now db.expiry.heap db.expiry.deadlines with ⟨ex, h2, dl2⟩
    rw [hres] at hk3
    simp only at hk3 ⊢
    unfold Expiry.get_deadline
    simp only
    have := drainLoop_emitted_deadline_none now db.expiry.heap db.expiry.deadlines k3
      (by rw [hres]; exact hk3)
    rw [hres] at this
    exact this
  · unfold Database.lpop
    rcases aGet db.data k2 with _ | v
    · rfl
    · rcases v with b | l | s | h | z
      · rfl
      · rcases l with _ | ⟨x, rest⟩
        · rfl
        · dsimp only
          split <;> rfl
      · rfl
      · rfl
      · rfl
  · unfold Database.rpop
    rcases aGet db.data k2 with _ | v
    · rfl
    · rcases v with b | l | s | h | z
      · rfl
      · dsimp only
        rcases l.getLast? with _ | x
        · rfl
        · dsimp only
          split <;> rfl
      · rfl
      · rfl
      · rfl
  · unfold Database.srem
    rcases aGet db.data k2 with _ | v
    · rfl
    · rcases v with b | l | s | h | z
      · rfl
      · rfl
      · dsimp only
        split <;> rfl
      · rfl
      · rfl
  · unfold Database.zrem
    rcases aGet db.data k2 with _ | v
    · rfl
    · rcases v with b | l | s | h | z
      · rfl
      · rfl
      · rfl
      · rfl
      · dsimp only
        split <;> rfl

/-! ## C7: the drain loop of the expiry index -/

theorem drainLoop_deadlines_eq (now : Nat) (h : List (Nat × Key)) (dl : List (Key × Nat))
    (k : Key) :
    aGet (drainLoop now h dl).2.2 k =
      if k ∈ (drainLoop now h dl).1 then none else aGet dl k := by
  induction h generalizing dl with
  | nil => simp [drainLoop]
  | cons p rest ih =>
    obtain ⟨d, k2⟩ := p
    rw [drainLoop_cons]
    by_cases hlt : now < d
    · rw [if_pos hlt]
      simp
    · rw [if_neg hlt]
      rcases hget : aGet dl k2 with _ | cur
      · exact ih dl
      · dsimp only
        by_cases hcur : cur = d
        · rw [if_pos hcur]
          simp only [List.mem_cons]
          by_cases hk : k = k2
          · subst hk
            rw [if_pos (Or.inl rfl)]
            exact drainLoop_deadline_none now rest (aRemove dl k) k (aGet_aRemove_self _ _)
          · rw [ih (aRemove dl k2), aGet_aRemove_ne _ _ _ hk]
            by_cases hmem : k ∈ (drainLoop now rest (aRemove dl k2)).1
            · rw [if_pos hmem, if_pos (Or.inr hmem)]
            · rw [if_neg hmem, if_neg (by simp [hk, hmem])]
        · rw [if_neg hcur]
          exact ih dl

theorem drainLoop_heap_eq (now : Nat) (h : List (Nat × Key)) (dl : List (Key × Nat)) :
    (drainLoop now h dl).2.1 = h.dropWhile (fun p => p.1 ≤ now) := by
  induction h generalizing dl with
  | nil => simp [drainLoop]
  | cons p rest ih =>
    obtain ⟨d, k2⟩ := p
    rw [drainLoop_cons]
    by_cases hlt : now < d
    · rw [if_pos hlt, List.dropWhile_cons_of_neg (by simpa using hlt)]
    · rw [if_neg hlt, List.dropWhile_cons_of_pos (by simpa using Nat.not_lt.mp hlt)]
      rcases hget : aGet dl k2 with _ | cur
      · exact ih dl
      · dsimp only
        by_cases hcur : cur = d
        · rw [if_pos hcur]
          exact ih (aRemove dl k2)
        · rw [if_neg hcur]
          exact ih dl

theorem drainLoop_mem_iff (now : Nat) (h : List (Nat × Key)) (dl : List (Key × Nat))
    (hs : h.Pairwise (fun a b => a.1 ≤ b.1)) (k : Key) :
    k ∈ (drainLoop now h dl).1 ↔
      ∃ d, aGet dl k = some d ∧ d ≤ now ∧ (d, k) ∈ h := by
  induction h generalizing dl with
  | nil => simp [drainLoop]
  | cons p rest ih =>
    obtain ⟨d, k2⟩ := p
    have hs2 : rest.Pairwise (fun a b => a.1 ≤ b.1) := (List.pairwise_cons.mp hs).2
    have hhead : ∀ q ∈ rest, d ≤ q.1 := by
      intro q hq
      exact (List.pairwise_cons.mp hs).1 q hq
    rw [drainLoop_cons]
    by_cases hlt : now < d
    · rw [if_pos hlt]
      simp only [List.not_mem_nil, false_iff]
      rintro ⟨d2, _, hd2, hmem⟩
      rcases List.mem_cons.mp hmem with heq | hmem2
      · have : d2 = d := congrArg Prod.fst heq
        omega
      · have := hhead (d2, k) hmem2
        simp only at this
        omega
    · rw [if_neg hlt]
      rcases hget : aGet dl k2 with _ | cur
      · rw [ih dl hs2]
        constructor
        · rintro ⟨d2, hd2, hle, hmem⟩
          exact ⟨d2, hd2, hle, List.mem_cons_of_mem _ hmem⟩
        · rintro ⟨d2, hd2, hle, hmem⟩
          rcases List.mem_cons.mp hmem with heq | hmem2
          · exfalso
            have hk : k = k2 := congrArg Prod.snd heq
            rw [hk] at hd2
            rw [hget] at hd2
            cases hd2
          · exact ⟨d2, hd2, hle, hmem2⟩
      · dsimp only
        by_cases hcur : cur = d
        · subst hcur
          rw [if_pos rfl]
          simp only [List.mem_cons]
          by_cases hk : k = k2
          · subst hk
            simp only [true_or, true_iff]
            exact ⟨cur, hget, Nat.not_lt.mp hlt, Or.inl rfl⟩
          · simp only [hk, false_or]
            rw [ih (aRemove dl k2) hs2]
            constructor
            · rintro ⟨d2, hd2, hle, hmem⟩
              rw [aGet_aRemove_ne _ _ _ hk] at hd2
              exact ⟨d2, hd2, hle, Or.inr hmem⟩
            · rintro ⟨d2, hd2, hle, hmem⟩
              refine ⟨d2, ?_, hle, ?_⟩
              · rw [aGet_aRemove_ne _ _ _ hk]
                exact hd2
              · rcases hmem with heq | hmem2
                · exact absurd (congrArg Prod.snd heq) hk
                · exact hmem2
        · rw [if_neg hcur]
          rw [ih dl hs2]
          constructor
          · rintro ⟨d2, hd2, hle, hmem⟩
            exact ⟨d2, hd2, hle, List.mem_cons_of_mem _ hmem⟩
          · rintro ⟨d2, hd2, hle, hmem⟩
            rcases List.mem_cons.mp hmem with heq | hmem2
            · exfalso
              have hk : k = k2 := congrArg Prod.snd heq
              have hd : d2 = d := congrArg Prod.fst heq
              rw [hk, hget] at hd2
              have hcd : cur = d2 := Option.some.inj hd2
              omega
            · exact ⟨d2, hd2, hle, hmem2⟩

theorem drain_expired_eq (e : Expiry) (now : Nat) :
    e.drain_expired now =
      ((drainLoop now e.heap e.deadlines).1,
        ⟨(drainLoop now e.heap e.deadlines).2.2, (drainLoop now e.heap e.deadlines).2.1⟩) := by
  unfold Expiry.drain_expired
  rcases drainLoop now e.heap e.deadlines with ⟨ex, h2, dl2⟩
  rfl

/-- C7: `Expiry::drain_expired` pops pending pairs while the head instant
is at or before `now`; a key is emitted exactly when its current map
deadline equals a popped instant that is due, the map afterwards holds
exactly the non-emitted entries, and the queue is left at the first
not-yet-due head (everything due or stale before it is popped, the rest —
beginning with that head — stays queued). -/
theorem C7_drain_expired_characterization (e : Expiry) (now : Nat)
    (hs : e.heap.Pairwise (fun a b => a.1 ≤ b.1)) :
    (∀ k, k ∈ (e.drain_expired now).1 ↔
      ∃ d, aGet e.deadlines k = some d ∧ d ≤ now ∧ (d, k) ∈ e.heap) ∧
    (∀ k, aGet (e.drain_expired now).2.deadlines k =
      if k ∈ (e.drain_expired now).1 then none else aGet e.deadlines k) ∧
    (e.drain_expired now).2.heap = e.heap.dropWhile (fun p => p.1 ≤ now) := by
  rw [drain_expired_eq]
  exact ⟨fun k => drainLoop_mem_iff now e.heap e.deadlines hs k,
    fun k => drainLoop_deadlines_eq now e.heap e.deadlines k,
    drainLoop_heap_eq now e.heap e.deadlines⟩

/-- Witness for C7 on a concrete index with one stale pair (the key `a`
was re-deadlined to 9, so its queued pair at 5 is stale at instant 6 and
only `b` would be emitted at 7). -/
theorem C7_drain_expired_witness :
    (Expiry.drain_expired
        ⟨[(asciiBytes "a", 9), (asciiBytes "b", 7)],
          [(5, asciiBytes "a"), (7, asciiBytes "b"), (9, asciiBytes "a")]⟩ 6).2.heap
      = [(5, asciiBytes "a"), (7, asciiBytes "b"), (9, asciiBytes "a")].dropWhile
          (fun p => p.1 ≤ 6) :=
  (C7_drain_expired_characterization
    ⟨[(asciiBytes "a", 9), (asciiBytes "b", 7)],
      [(5, asciiBytes "a"), (7, asciiBytes "b"), (9, asciiBytes "a")]⟩ 6 (by decide)).2.2

/-! ## C10: totality of the zadd comparison without NaN -/

theorem zCmp_isSome (a b : Bytes × F64) (ha : a.2 ≠ F64.nan) (hb : b.2 ≠ F64.nan) :
    (zCmp a b).isSome = true := by
  obtain ⟨ma, sa⟩ := a
  obtain ⟨mb, sb⟩ := b
  simp only at ha hb
  cases sa <;> cases sb <;> simp [zCmp, F64.pcmp] at ha hb ⊢

theorem insertPartial_some (x : Bytes × F64) (l : List (Bytes × F64))
    (hx : x.2 ≠ F64.nan) (hl : ∀ y ∈ l, y.2 ≠ F64.nan) :
    ∃ r, insertPartial x l = some r ∧ (∀ y ∈ r, y = x ∨ y ∈ l) ∧
      r.length = l.length + 1 := by
  induction l with
  | nil =>
    refine ⟨[x], rfl, ?_, rfl⟩
    intro y hy
    rcases List.mem_singleton.mp hy with h
    exact Or.inl h
  | cons y ys ih =>
    have hcmp := zCmp_isSome x y hx (hl y (List.mem_cons_self _ _))
    rcases hc : zCmp x y with _ | o
    · rw [hc] at hcmp; cases hcmp
    · unfold insertPartial
      rw [hc]
      dsimp only
      by_cases ho : o = .gt
      · rw [if_pos ho]
        obtain ⟨r', hr', hmem, hlen⟩ := ih (fun z hz => hl z (List.mem_cons_of_mem _ hz))
        refine ⟨y :: r', by rw [hr']; rfl, ?_, by simp [hlen]⟩
        intro z hz
        rcases List.mem_cons.mp hz with hzy | hzr
        · exact Or.inr (by rw [hzy]; exact List.mem_cons_self _ _)
        · rcases hmem z hzr with hzx | hzys
          · exact Or.inl hzx
          · exact Or.inr (List.mem_cons_of_mem _ hzys)
      · rw [if_neg ho]
        refine ⟨x :: y :: ys, rfl, ?_, by simp⟩
        intro z hz
        rcases List.mem_cons.mp hz with hzx | hzr
        · exact Or.inl hzx
        · exact Or.inr hzr

theorem sortPartial_some (l : List (Bytes × F64)) (hl : ∀ y ∈ l, y.2 ≠ F64.nan) :
    ∃ r, sortPartial l = some r ∧ (∀ y ∈ r, y ∈ l) ∧ r.length = l.length := by
  induction l with
  | nil => exact ⟨[], rfl, by simp, rfl⟩
  | cons x xs ih =>
    obtain ⟨r', hr', hmem, hlen⟩ := ih (fun z hz => hl z (List.mem_cons_of_mem _ hz))
    have hx : x.2 ≠ F64.nan := hl x (List.mem_cons_self _ _)
    have hr'nan : ∀ y ∈ r', y.2 ≠ F64.nan :=
      fun y hy => hl y (List.mem_cons_of_mem _ (hmem y hy))
    obtain ⟨r, hr, hmem2, hlen2⟩ := insertPartial_some x r' hx hr'nan
    refine ⟨r, ?_, ?_, by simp only [List.length_cons]; omega⟩
    · show (sortPartial xs).bind (insertPartial x) = some r
      rw [hr']
      exact hr
    · intro y hy
      rcases hmem2 y hy with hyx | hyr
      · rw [hyx]; exact List.mem_cons_self _ _
      · exact List.mem_cons_of_mem _ (hmem y hyr)

theorem zUpsert_mem (ms : List (Bytes × F64)) (v : List (Bytes × F64)) (a : Nat)
    (p : Bytes × F64) (hp : p ∈ (zUpsert v a ms).1) : p ∈ v ∨ p ∈ ms := by
  induction ms generalizing v a with
  | nil => exact Or.inl hp
  | cons m rest ih =>
    obtain ⟨mb, s⟩ := m
    rw [zUpsert] at hp
    rcases hidx : v.findIdx? (fun q => q.1 = mb) with _ | i
    · rw [hidx] at hp
      rcases ih (v ++ [(mb, s)]) (a + 1) hp with hv | hrest
      · rcases List.mem_append.mp hv with h1 | h2
        · exact Or.inl h1
        · exact Or.inr (by rw [List.mem_singleton.mp h2]; exact List.mem_cons_self _ _)
      · exact Or.inr (List.mem_cons_of_mem _ hrest)
    · rw [hidx] at hp
      rcases ih (v.set i (mb, s)) a hp with hv | hrest
      · rcases List.mem_or_eq_of_mem_set hv with h1 | h2
        · exact Or.inl h1
        · exact Or.inr (by rw [h2]; exact List.mem_cons_self _ _)
      · exact Or.inr (List.mem_cons_of_mem _ hrest)

theorem zUpsert_ne_nil (ms : List (Bytes × F64)) (v : List (Bytes × F64)) (a : Nat)
    (h : v ≠ [] ∨ ms ≠ []) : (zUpsert v a ms).1 ≠ [] := by
  induction ms generalizing v a with
  | nil =>
    rcases h with hv | hm
    · exact hv
    · exact absurd rfl hm
  | cons m rest ih =>
    obtain ⟨mb, s⟩ := m
    rw [zUpsert]
    rcases hidx : v.findIdx? (fun q => q.1 = mb) with _ | i
    · rw [hidx]
      exact ih (v ++ [(mb, s)]) (a + 1) (Or.inl (by simp))
    · rw [hidx]
      refine ih (v.set i (mb, s)) a (Or.inl ?_)
      have hlt : i < v.length := List.findIdx?_eq_some_iff_findIdx_eq.mp hidx |>.1
      intro hnil
      have hlen := congrArg List.length hnil
      simp only [List.length_set, List.length_nil] at hlen
      omega

/-- C10 (amended): when no NaN score is among the new members or in the
stored container, every comparison `zadd` performs succeeds — the
operation cannot panic — and any score property `P` shared by the new and
stored members (in particular finiteness, or NaN-freeness itself) holds
of every score stored afterwards. -/
theorem C10_amended_zadd_no_nan_total (db : Database) (k : Key)
    (zms : List (Bytes × F64)) (P : F64 → Prop)
    (hnan : ∀ p ∈ zms, p.2 ≠ F64.nan)
    (hdbnan : ∀ z, aGet db.data k = some (.zset z) → ∀ p ∈ z, p.2 ≠ F64.nan)
    (hP : ∀ p ∈ zms, P p.2)
    (hdbP : ∀ z, aGet db.data k = some (.zset z) → ∀ p ∈ z, P p.2) :
    ∃ r, db.zadd k zms = some r ∧
      ∀ z, aGet r.1.data k = some (.zset z) → ∀ p ∈ z, P p.2 := by
  unfold Database.zadd
  rcases hget : aGet db.data k with _ | v
  · dsimp only
    have hup : ∀ p ∈ (zUpsert [] 0 zms).1, p.2 ≠ F64.nan := by
      intro p hp
      rcases zUpsert_mem zms [] 0 p hp with h1 | h2
      · cases h1
      · exact hnan p h2
    obtain ⟨r, hr, hmem, _⟩ := sortPartial_some (zUpsert [] 0 zms).1 hup
    rcases hzu : zUpsert [] 0 zms with ⟨v2, added⟩
    rw [hzu] at hr hmem
    dsimp only at hr hmem ⊢
    rw [hr]
    refine ⟨_, rfl, ?_⟩
    intro z hz p hp
    rw [aGet_aInsert_self] at hz
    have hzr : z = r := by
      have h2 := Option.some.inj hz
      injection h2 with h3
      exact h3.symm
    rw [hzr] at hp
    have hpv : p ∈ v2 := hmem p hp
    have hpv2 : p ∈ (zUpsert [] 0 zms).1 := by rw [hzu]; exact hpv
    rcases zUpsert_mem zms [] 0 p hpv2 with h1 | h2
    · cases h1
    · exact hP p h2
  · rcases v with b | l | s | hsh | z0 <;> dsimp only
    · exact ⟨(db, 0), rfl, fun z hz => by rw [hget] at hz; simp at hz⟩
    · exact ⟨(db, 0), rfl, fun z hz => by rw [hget] at hz; simp at hz⟩
    · exact ⟨(db, 0), rfl, fun z hz => by rw [hget] at hz; simp at hz⟩
    · exact ⟨(db, 0), rfl, fun z hz => by rw [hget] at hz; simp at hz⟩
    · have hup : ∀ p ∈ (zUpsert z0 0 zms).1, p.2 ≠ F64.nan := by
        intro p hp
        rcases zUpsert_mem zms z0 0 p hp with h1 | h2
        · exact hdbnan z0 hget p h1
        · exact hnan p h2
      obtain ⟨r, hr, hmem, _⟩ := sortPartial_some (zUpsert z0 0 zms).1 hup
      rcases hzu : zUpsert z0 0 zms with ⟨v2, added⟩
      rw [hzu] at hr hmem
      dsimp only at hr hmem ⊢
      rw [hr]
      refine ⟨_, rfl, ?_⟩
      intro z hz p hp
      rw [aGet_aInsert_self] at hz
      have hzr : z = r := by
        have h2 := Option.some.inj hz
        injection h2 with h3
        exact h3.symm
      rw [hzr] at hp
      have hpv : p ∈ v2 := hmem p hp
      have hpv2 : p ∈ (zUpsert z0 0 zms).1 := by rw [hzu]; exact hpv
      rcases zUpsert_mem zms z0 0 p hpv2 with h1 | h2
      · exact hdbP z0 hget p h1
      · exact hP p h2

/-- Witness for the C10 amendment: two finite-score members on the empty
store; `zadd` succeeds and every stored score is finite. -/
theorem C10_amended_zadd_no_nan_total_witness :
    ∃ r, Database.zadd Database.empty (asciiBytes "k")
        [(asciiBytes "a", .finite 2), (asciiBytes "b", .finite 1)] = some r ∧
      ∀ z, aGet r.1.data (asciiBytes "k") = some (.zset z) →
        ∀ p ∈ z, (fun s => s.isFinite = true) p.2 :=
  C10_amended_zadd_no_nan_total Database.empty (asciiBytes "k")
    [(asciiBytes "a", .finite 2), (asciiBytes "b", .finite 1)]
    (fun s => s.isFinite = true)
    (by decide) (by intro z hz; cases hz) (by decide) (by intro z hz; cases hz)

/-! ## C2 (amended): decode-of-encode round-trip, supporting lemmas -/

theorem natDecAux_digits (fuel n : Nat) (h : n < fuel) :
    ∀ b ∈ natDecAux fuel n, 48 ≤ b ∧ b ≤ 57 := by
  induction fuel generalizing n with
  | zero => omega
  | succ fuel ih =>
    rw [natDecAux]
    by_cases hn : n < 10
    · rw [if_pos hn]
      intro b hb
      rcases List.mem_singleton.mp hb with h2
      omega
    · rw [if_neg hn]
      intro b hb
      rcases List.mem_append.mp hb with h2 | h2
      · exact ih (n / 10) (by omega) b h2
      · rcases List.mem_singleton.mp h2 with h3
        have : n % 10 < 10 := Nat.mod_lt _ (by omega)
        omega

theorem natDecAux_ne_nil (fuel n : Nat) (h : n < fuel) : natDecAux fuel n ≠ [] := by
  rcases fuel with _ | fuel
  · omega
  · rw [natDecAux]
    by_cases hn : n < 10
    · rw [if_pos hn]; simp
    · rw [if_neg hn]; simp

theorem digitsVal_append_digit (l : List Nat) (d : Nat) :
    digitsVal (l ++ [d]) = digitsVal l * 10 + (d - 48) := by
  unfold digitsVal
  rw [List.foldl_append]
  rfl

theorem natDecAux_val (fuel n : Nat) (h : n < fuel) :
    digitsVal (natDecAux fuel n) = n := by
  induction fuel generalizing n with
  | zero => omega
  | succ fuel ih =>
    rw [natDecAux]
    by_cases hn : n < 10
    · rw [if_pos hn]
      show digitsVal [48 + n] = n
      unfold digitsVal
      simp
    · rw [if_neg hn]
      rw [digitsVal_append_digit, ih (n / 10) (by omega)]
      omega

theorem natDecimal_digits (n : Nat) : ∀ b ∈ natDecimal n, 48 ≤ b ∧ b ≤ 57 :=
  natDecAux_digits (n + 1) n (by omega)

theorem natDecimal_ne_nil (n : Nat) : natDecimal n ≠ [] :=
  natDecAux_ne_nil (n + 1) n (by omega)

theorem natDecimal_val (n : Nat) : digitsVal (natDecimal n) = n :=
  natDecAux_val (n + 1) n (by omega)

theorem intDecimal_bytes (i : Int) : ∀ b ∈ intDecimal i, 45 ≤ b ∧ b ≤ 57 := by
  unfold intDecimal
  by_cases hi : i < 0
  · rw [if_pos hi]
    intro b hb
    rcases List.mem_cons.mp hb with h | h
    · omega
    · have := natDecimal_digits i.natAbs b h
      omega
  · rw [if_neg hi]
    intro b hb
    have := natDecimal_digits i.toNat b hb
    omega

theorem intDecimal_ne_nil (i : Int) : intDecimal i ≠ [] := by
  unfold intDecimal
  by_cases hi : i < 0
  · rw [if_pos hi]; simp
  · rw [if_neg hi]; exact natDecimal_ne_nil _

theorem parseI64_natDecimal (n : Nat) (h : n < 2 ^ 63) :
    parseI64 (natDecimal n) = some (n : Int) := by
  unfold parseI64
  have hd := natDecimal_digits n
  have hne := natDecimal_ne_nil n
  have h45 : (natDecimal n).head? ≠ some 45 := by
    rcases hh : natDecimal n with _ | ⟨b, bs⟩
    · simp
    · have := hd b (by rw [hh]; exact List.mem_cons_self _ _)
      simp only [List.head?_cons]
      intro hc
      have : b = 45 := Option.some.inj hc
      omega
  have h43 : (natDecimal n).head? ≠ some 43 := by
    rcases hh : natDecimal n with _ | ⟨b, bs⟩
    · simp
    · have := hd b (by rw [hh]; exact List.mem_cons_self _ _)
      simp only [List.head?_cons]
      intro hc
      have : b = 43 := Option.some.inj hc
      omega
  rw [if_neg h45, if_neg h43,
    if_pos ⟨hne, List.all_eq_true.mpr (fun b hb => by
      have := hd b hb
      simp [isDigit]
      omega), by rw [natDecimal_val]; exact h⟩,
    natDecimal_val]

theorem parseI64_intDecimal (i : Int) (hlo : -(2 ^ 63) ≤ i) (hhi : i < 2 ^ 63) :
    parseI64 (intDecimal i) = some i := by
  by_cases hi : i < 0
  · show parseI64 (intDecimal i) = some i
    unfold intDecimal
    rw [if_pos hi]
    unfold parseI64
    rw [if_pos (by simp)]
    have hd := natDecimal_digits i.natAbs
    have hne := natDecimal_ne_nil i.natAbs
    have hdrop : (45 :: natDecimal i.natAbs).drop 1 = natDecimal i.natAbs := rfl
    rw [hdrop]
    rw [if_pos ⟨hne, List.all_eq_true.mpr (fun b hb => by
        have := hd b hb
        simp only [isDigit, decide_eq_true_eq, Bool.and_eq_true, decide_eq_true_iff]
        omega), by rw [natDecimal_val]; omega⟩]
    rw [natDecimal_val]
    congr 1
    omega
  · have h0 : (0 : Int) ≤ i := by omega
    have : intDecimal i = natDecimal i.toNat := by
      unfold intDecimal
      rw [if_neg hi]
    rw [this, parseI64_natDecimal i.toNat (by omega)]
    congr 1
    omega

theorem utf8ValidAux_ascii (l : List Nat) (h : ∀ x ∈ l, x < 128) :
    ∀ fuel, l.length ≤ fuel → utf8ValidAux fuel l = true := by
  induction l with
  | nil =>
    intro fuel _
    rcases fuel with _ | fuel
    · rfl
    · rfl
  | cons b rest ih =>
    intro fuel hf
    rcases fuel with _ | fuel
    · simp at hf
    · rw [utf8ValidAux]
      have hb : utf8SeqLen b rest = some 1 := by
        unfold utf8SeqLen
        rw [if_pos (h b (List.mem_cons_self _ _))]
      rw [hb]
      exact ih (fun x hx => h x (List.mem_cons_of_mem _ hx)) fuel (by simpa using hf)

theorem utf8Valid_ascii (l : List Nat) (h : ∀ x ∈ l, x < 128) : utf8Valid l = true :=
  utf8ValidAux_ascii l h l.length (by omega)

theorem findCrlf_append (a b : List Nat) (ha : ∀ x ∈ a, x ≠ 13) :
    findCrlf (a ++ 13 :: 10 :: b) = some a.length := by
  induction a with
  | nil =>
    rw [List.nil_append, findCrlf]
    simp
  | cons x xs ih =>
    have hx : x ≠ 13 := ha x (List.mem_cons_self _ _)
    have ihh := ih (fun y hy => ha y (List.mem_cons_of_mem _ hy))
    rcases xs with _ | ⟨y, ys⟩
    · rw [List.cons_append, List.nil_append, findCrlf]
      rw [if_neg (by simp [hx])]
      rw [findCrlf]
      simp
    · rw [List.cons_append]
      have hshape : (y :: ys) ++ 13 :: 10 :: b = y :: (ys ++ 13 :: 10 :: b) := rfl
      rw [hshape, findCrlf, if_neg (by simp [hx]), ← hshape, ihh]
      simp

theorem lineOf_append (t : Nat) (line rest : List Nat) (h : ∀ x ∈ line, x ≠ 13) :
    lineOf (t :: (line ++ 13 :: 10 :: rest)) = some (line, line.length + 3) := by
  unfold lineOf
  simp only [List.drop_succ_cons, List.drop_zero]
  rw [findCrlf_append line rest h]
  dsimp only
  rw [List.take_left]

theorem parseSimpleB_round (s rest : List Nat) (h13 : ∀ x ∈ s, x ≠ 13)
    (hu : utf8Valid s = true) :
    parseSimpleB ((43 :: (s ++ crlf)) ++ rest) = .ok (some (.simple s, s.length + 3)) := by
  have hsh : (43 :: (s ++ crlf)) ++ rest = 43 :: (s ++ 13 :: 10 :: rest) := by
    simp [crlf]
  rw [hsh]
  unfold parseSimpleB
  rw [lineOf_append 43 s rest h13]
  dsimp only
  rw [if_pos hu]

theorem parseErrB_round (s rest : List Nat) (h13 : ∀ x ∈ s, x ≠ 13)
    (hu : utf8Valid s = true) :
    parseErrB ((45 :: (s ++ crlf)) ++ rest) = .ok (some (.err s, s.length + 3)) := by
  have hsh : (45 :: (s ++ crlf)) ++ rest = 45 :: (s ++ 13 :: 10 :: rest) := by
    simp [crlf]
  rw [hsh]
  unfold parseErrB
  rw [lineOf_append 45 s rest h13]
  dsimp only
  rw [if_pos hu]

theorem parseIntB_round (i : Int) (rest : List Nat) (hlo : -(2 ^ 63) ≤ i)
    (hhi : i < 2 ^ 63) :
    parseIntB ((58 :: (intDecimal i ++ crlf)) ++ rest)
      = .ok (some (.int i, (intDecimal i).length + 3)) := by
  have hsh : (58 :: (intDecimal i ++ crlf)) ++ rest
      = 58 :: (intDecimal i ++ 13 :: 10 :: rest) := by
    simp [crlf]
  rw [hsh]
  unfold parseIntB
  rw [lineOf_append 58 (intDecimal i) rest
    (fun x hx => by have := intDecimal_bytes i x hx; omega)]
  dsimp only
  rw [if_pos (utf8Valid_ascii _ (fun x hx => by have := intDecimal_bytes i x hx; omega))]
  rw [parseI64_intDecimal i hlo hhi]

theorem parseAggCore_round (t n : Nat) (tail : List Nat) (hn : n < 2 ^ 63) :
    parseAggCore ((t :: (natDecimal n ++ crlf)) ++ tail)
      = .ok (some ((n : Int), (natDecimal n).length + 3)) := by
  have hsh : (t :: (natDecimal n ++ crlf)) ++ tail
      = t :: (natDecimal n ++ 13 :: 10 :: tail) := by
    simp [crlf]
  rw [hsh]
  unfold parseAggCore
  rw [lineOf_append t (natDecimal n) tail
    (fun x hx => by have := natDecimal_digits n x hx; omega)]
  dsimp only
  rw [if_pos (utf8Valid_ascii _ (fun x hx => by have := natDecimal_digits n x hx; omega))]
  rw [parseI64_natDecimal n hn]

theorem parseNullB_round (rest : List Nat) :
    parseNullB ((95 :: crlf) ++ rest) = .ok (some (.null, 3)) := by
  show parseNullB (95 :: 13 :: 10 :: rest) = .ok (some (.null, 3))
  unfold parseNullB
  rw [if_neg (by simp)]
  rw [if_pos (show List.take 3 (95 :: 13 :: 10 :: rest) = [95, 13, 10] from rfl)]

theorem parseBoolB_round (b : Bool) (rest : List Nat) :
    parseBoolB ((35 :: ((if b then [116] else [102]) ++ crlf)) ++ rest)
      = .ok (some (.bool b, 4)) := by
  rcases b with _ | _
  · show parseBoolB (35 :: 102 :: 13 :: 10 :: rest) = .ok (some (.bool false, 4))
    unfold parseBoolB
    rw [if_neg (by simp)]
    rw [if_neg (by simp [crlf])]
    rw [if_pos (show List.take 3 (List.drop 1 (35 :: 102 :: 13 :: 10 :: rest))
      = 102 :: crlf from rfl)]
  · show parseBoolB (35 :: 116 :: 13 :: 10 :: rest) = .ok (some (.bool true, 4))
    unfold parseBoolB
    rw [if_neg (by simp)]
    rw [if_pos (show List.take 3 (List.drop 1 (35 :: 116 :: 13 :: 10 :: rest))
      = 116 :: crlf from rfl)]

theorem parseBulkB_none_round (rest : List Nat) :
    parseBulkB ((asciiBytes "$-1" ++ crlf) ++ rest) = .ok (some (.bulk none, 5)) := by
  show parseBulkB (36 :: ([45, 49] ++ 13 :: 10 :: rest)) = .ok (some (.bulk none, 5))
  unfold parseBulkB
  rw [lineOf_append 36 [45, 49] rest (by decide)]
  rfl

theorem parseBulkB_some_round (b rest : List Nat) (hlen : b.length < 2 ^ 63) :
    parseBulkB ((36 :: (natDecimal b.length ++ crlf ++ b ++ crlf)) ++ rest)
      = .ok (some (.bulk (some b), (natDecimal b.length).length + 3 + b.length + 2)) := by
  have hsh : (36 :: (natDecimal b.length ++ crlf ++ b ++ crlf)) ++ rest
      = 36 :: (natDecimal b.length ++ 13 :: 10 :: (b ++ 13 :: 10 :: rest)) := by
    simp [crlf]
  rw [hsh]
  unfold parseBulkB
  rw [lineOf_append 36 (natDecimal b.length) (b ++ 13 :: 10 :: rest)
    (fun x hx => by have := natDecimal_digits b.length x hx; omega)]
  dsimp only
  rw [if_pos (utf8Valid_ascii _
    (fun x hx => by have := natDecimal_digits b.length x hx; omega))]
  rw [parseI64_natDecimal b.length hlen]
  dsimp only
  rw [if_neg (by omega), if_neg (by omega)]
  have hbuf : (36 : Nat) :: (natDecimal b.length ++ 13 :: 10 :: (b ++ 13 :: 10 :: rest))
      = ((36 :: natDecimal b.length ++ [13, 10]) ++ b) ++ (13 :: 10 :: rest) := by
    simp
  have hlen2 : ((36 :: natDecimal b.length ++ [13, 10]) ++ b).length
      = (natDecimal b.length).length + 3 + (b.length : Int).toNat := by
    simp
    omega
  rw [if_neg (by simp; omega)]
  have hdropA : ((36 : Nat) :: (natDecimal b.length ++ 13 :: 10 :: (b ++ 13 :: 10 :: rest))).drop
      ((natDecimal b.length).length + 3 + (b.length : Int).toNat) = 13 :: 10 :: rest := by
    rw [hbuf, ← hlen2, List.drop_left]
  rw [hdropA]
  rw [if_pos (show List.take 2 (13 :: 10 :: rest) = crlf from rfl)]
  have hbuf2 : (36 : Nat) :: (natDecimal b.length ++ 13 :: 10 :: (b ++ 13 :: 10 :: rest))
      = (36 :: natDecimal b.length ++ [13, 10]) ++ (b ++ 13 :: 10 :: rest) := by
    simp
  have hlen3 : (36 :: natDecimal b.length ++ [13, 10]).length
      = (natDecimal b.length).length + 3 := by
    simp
  have hdropB : ((36 : Nat) :: (natDecimal b.length ++ 13 :: 10 :: (b ++ 13 :: 10 :: rest))).drop
      ((natDecimal b.length).length + 3) = b ++ 13 :: 10 :: rest := by
    rw [hbuf2, ← hlen3, List.drop_left]
  rw [hdropB]
  have htake : (b ++ 13 :: 10 :: rest).take (b.length : Int).toNat = b := by
    simp
  rw [htake]
  simp

theorem sizeOf_resp_pos (f : Resp) : 1 ≤ sizeOf f := by
  cases f <;> simp

theorem sizeOf_list_pos {α : Type} [SizeOf α] (l : List α) : 1 ≤ sizeOf l := by
  cases l <;> simp
  all_goals omega

theorem parseF_simple (fuel : Nat) (l rest : List Nat) :
    parseF (fuel + 1) ((43 :: l) ++ rest) = parseSimpleB ((43 :: l) ++ rest) := rfl

theorem parseF_err (fuel : Nat) (l rest : List Nat) :
    parseF (fuel + 1) ((45 :: l) ++ rest) = parseErrB ((45 :: l) ++ rest) := rfl

theorem parseF_int (fuel : Nat) (l rest : List Nat) :
    parseF (fuel + 1) ((58 :: l) ++ rest) = parseIntB ((58 :: l) ++ rest) := rfl

theorem parseF_bulk (fuel : Nat) (l rest : List Nat) :
    parseF (fuel + 1) ((36 :: l) ++ rest) = parseBulkB ((36 :: l) ++ rest) := rfl

theorem parseF_array_some (fuel : Nat) (l : List Nat) (n used1 : Nat)
    (items : List Resp) (used2 : Nat)
    (hagg : parseAggCore (42 :: l) = .ok (some ((n : Int), used1)))
    (helems : parseElems fuel n ((42 :: l).drop used1) = .ok (some (items, used2))) :
    parseF (fuel + 1) (42 :: l) = .ok (some (.array (some items), used1 + used2)) := by
  rw [parseF]
  rw [hagg]
  dsimp only
  rw [if_neg (show ¬((n : Int) = -1) by omega), if_neg (show ¬((n : Int) < 0) by omega)]
  rw [show ((n : Int)).toNat = n from by omega]
  rw [helems]
  rfl

theorem parseF_set_some (fuel : Nat) (l : List Nat) (n used1 : Nat)
    (items : List Resp) (used2 : Nat)
    (hagg : parseAggCore (126 :: l) = .ok (some ((n : Int), used1)))
    (helems : parseElems fuel n ((126 :: l).drop used1) = .ok (some (items, used2))) :
    parseF (fuel + 1) (126 :: l) = .ok (some (.set (some items), used1 + used2)) := by
  rw [parseF]
  rw [hagg]
  dsimp only
  rw [if_neg (show ¬((n : Int) = -1) by omega), if_neg (show ¬((n : Int) < 0) by omega)]
  rw [show ((n : Int)).toNat = n from by omega]
  rw [helems]
  rfl

theorem parseF_map_some (fuel : Nat) (l : List Nat) (n used1 : Nat)
    (items : List (Resp × Resp)) (used2 : Nat)
    (hagg : parseAggCore (37 :: l) = .ok (some ((n : Int), used1)))
    (hpairs : parsePairs fuel n ((37 :: l).drop used1) = .ok (some (items, used2))) :
    parseF (fuel + 1) (37 :: l) = .ok (some (.map (some items), used1 + used2)) := by
  rw [parseF]
  rw [hagg]
  dsimp only
  rw [if_neg (show ¬((n : Int) = -1) by omega), if_neg (show ¬((n : Int) < 0) by omega)]
  rw [show ((n : Int)).toNat = n from by omega]
  rw [hpairs]
  rfl

theorem parseF_push_some (fuel : Nat) (l : List Nat) (n used1 : Nat)
    (items : List Resp) (used2 : Nat)
    (hagg : parseAggCore (62 :: l) = .ok (some ((n : Int), used1)))
    (helems : parseElems fuel n ((62 :: l).drop used1) = .ok (some (items, used2))) :
    parseF (fuel + 1) (62 :: l) = .ok (some (.push items, used1 + used2)) := by
  rw [parseF]
  rw [hagg]
  dsimp only
  rw [if_neg (show ¬((n : Int) < 0) by omega)]
  rw [show ((n : Int)).toNat = n from by omega]
  rw [helems]
  rfl

set_option maxHeartbeats 1600000 in
/-- Master round-trip induction: on every `Good` frame the parser inverts
the encoder (and consumes exactly the emitted bytes), uniformly in any
sufficient encoder and parser fuel and any trailing bytes; with the matching
statements for the aggregate-element and map-entry loops. -/
theorem respRound (N : Nat) :
    (∀ F : Resp, sizeOf F ≤ N → Good F → ∀ fe, sizeOf F ≤ fe → ∀ fp, sizeOf F ≤ fp →
      ∀ rest, parseF fp (encodeF fe F ++ rest) = .ok (some (F, (encodeF fe F).length))) ∧
    (∀ L : List Resp, sizeOf L ≤ N → (∀ f ∈ L, Good f) →
      ∀ fe, sizeOf L ≤ fe → ∀ fp, sizeOf L ≤ fp →
      ∀ rest, parseElems fp L.length (encodeListF fe L ++ rest)
        = .ok (some (L, (encodeListF fe L).length))) ∧
    (∀ P : List (Resp × Resp), sizeOf P ≤ N →
      (∀ p ∈ P, Good p.1) → (∀ p ∈ P, Good p.2) →
      ∀ fe, sizeOf P ≤ fe → ∀ fp, sizeOf P ≤ fp →
      ∀ rest, parsePairs fp P.length (encodePairsF fe P ++ rest)
        = .ok (some (P, (encodePairsF fe P).length))) := by
  induction N using Nat.strong_induction_on with
  | _ N ih =>
  refine ⟨?_, ?_, ?_⟩
  · intro F hN hg fe hfe fp hfp rest
    have hpos := sizeOf_resp_pos F
    rcases fe with _ | fe
    · omega
    rcases fp with _ | fp
    · omega
    cases hg with
    | simple s h13 h10 hu =>
      rw [show encodeF (fe + 1) (.simple s) = 43 :: (s ++ crlf) from rfl]
      rw [parseF_simple fp (s ++ crlf) rest]
      rw [parseSimpleB_round s rest (fun x hx he => h13 (he ▸ hx)) hu]
      rw [show (43 :: (s ++ crlf)).length = s.length + 3 from by
        simp only [List.length_cons, List.length_append, crlf, List.length_nil]]
    | err s h13 h10 hu =>
      rw [show encodeF (fe + 1) (.err s) = 45 :: (s ++ crlf) from rfl]
      rw [parseF_err fp (s ++ crlf) rest]
      rw [parseErrB_round s rest (fun x hx he => h13 (he ▸ hx)) hu]
      rw [show (45 :: (s ++ crlf)).length = s.length + 3 from by
        simp only [List.length_cons, List.length_append, crlf, List.length_nil]]
    | int i hlo hhi =>
      rw [show encodeF (fe + 1) (.int i) = 58 :: (intDecimal i ++ crlf) from rfl]
      rw [parseF_int fp (intDecimal i ++ crlf) rest]
      rw [parseIntB_round i rest hlo hhi]
      rw [show (58 :: (intDecimal i ++ crlf)).length = (intDecimal i).length + 3 from by
        simp only [List.length_cons, List.length_append, crlf, List.length_nil]]
    | bool b => cases b <;> rfl
    | null => rfl
    | bulkNone => rfl
    | bulkSome b hb =>
      rw [show encodeF (fe + 1) (.bulk (some b))
        = 36 :: (natDecimal b.length ++ crlf ++ b ++ crlf) from rfl]
      rw [parseF_bulk fp (natDecimal b.length ++ crlf ++ b ++ crlf) rest]
      rw [parseBulkB_some_round b rest hb]
      rw [show (36 :: (natDecimal b.length ++ crlf ++ b ++ crlf)).length
        = (natDecimal b.length).length + 3 + b.length + 2 from by
        simp only [List.length_cons, List.length_append, crlf, List.length_nil]; omega]
    | arrayNone => rfl
    | arraySome items hlen hall =>
      simp at hN hfe hfp
      have hsh : encodeF (fe + 1) (.array (some items)) ++ rest
          = 42 :: ((natDecimal items.length ++ crlf) ++ (encodeListF fe items ++ rest)) := by
        rw [show encodeF (fe + 1) (.array (some items))
          = 42 :: (natDecimal items.length ++ crlf ++ encodeListF fe items) from rfl]
        simp
      rw [hsh]
      have hagg : parseAggCore
          (42 :: ((natDecimal items.length ++ crlf) ++ (encodeListF fe items ++ rest)))
          = .ok (some ((items.length : Int), (natDecimal items.length).length + 3)) := by
        rw [show (42 : Nat) :: ((natDecimal items.length ++ crlf) ++ (encodeListF fe items ++ rest))
          = (42 :: (natDecimal items.length ++ crlf)) ++ (encodeListF fe items ++ rest) from rfl]
        exact parseAggCore_round 42 items.length _ hlen
      have hdrop : ((42 : Nat) :: ((natDecimal items.length ++ crlf)
            ++ (encodeListF fe items ++ rest))).drop ((natDecimal items.length).length + 3)
          = encodeListF fe items ++ rest := by
        rw [show (42 : Nat) :: ((natDecimal items.length ++ crlf) ++ (encodeListF fe items ++ rest))
          = (42 :: (natDecimal items.length ++ crlf)) ++ (encodeListF fe items ++ rest) from rfl]
        rw [show (natDecimal items.length).length + 3
          = (42 :: (natDecimal items.length ++ crlf)).length from by
            simp only [List.length_cons, List.length_append, crlf, List.length_nil]]
        exact List.drop_left _ _
      have helems : parseElems fp items.length
          (((42 : Nat) :: ((natDecimal items.length ++ crlf)
            ++ (encodeListF fe items ++ rest))).drop ((natDecimal items.length).length + 3))
          = .ok (some (items, (encodeListF fe items).length)) := by
        rw [hdrop]
        exact (ih (sizeOf items) (by omega)).2.1 items le_rfl hall fe (by omega) fp (by omega) rest
      rw [parseF_array_some fp _ items.length ((natDecimal items.length).length + 3) items
        (encodeListF fe items).length hagg helems]
      rw [show (encodeF (fe + 1) (.array (some items))).length
        = (natDecimal items.length).length + 3 + (encodeListF fe items).length from by
          rw [show encodeF (fe + 1) (.array (some items))
            = 42 :: (natDecimal items.length ++ crlf ++ encodeListF fe items) from rfl]
          simp only [List.length_cons, List.length_append, crlf, List.length_nil]; omega]
    | setNone => rfl
    | setSome items hlen hall =>
      simp at hN hfe hfp
      have hsh : encodeF (fe + 1) (.set (some items)) ++ rest
          = 126 :: ((natDecimal items.length ++ crlf) ++ (encodeListF fe items ++ rest)) := by
        rw [show encodeF (fe + 1) (.set (some items))
          = 126 :: (natDecimal items.length ++ crlf ++ encodeListF fe items) from rfl]
        simp
      rw [hsh]
      have hagg : parseAggCore
          (126 :: ((natDecimal items.length ++ crlf) ++ (encodeListF fe items ++ rest)))
          = .ok (some ((items.length : Int), (natDecimal items.length).length + 3)) := by
        rw [show (126 : Nat) :: ((natDecimal items.length ++ crlf) ++ (encodeListF fe items ++ rest))
          = (126 :: (natDecimal items.length ++ crlf)) ++ (encodeListF fe items ++ rest) from rfl]
        exact parseAggCore_round 126 items.length _ hlen
      have hdrop : ((126 : Nat) :: ((natDecimal items.length ++ crlf)
            ++ (encodeListF fe items ++ rest))).drop ((natDecimal items.length).length + 3)
          = encodeListF fe items ++ rest := by
        rw [show (126 : Nat) :: ((natDecimal items.length ++ crlf) ++ (encodeListF fe items ++ rest))
          = (126 :: (natDecimal items.length ++ crlf)) ++ (encodeListF fe items ++ rest) from rfl]
        rw [show (natDecimal items.length).length + 3
          = (126 :: (natDecimal items.length ++ crlf)).length from by
            simp only [List.length_cons, List.length_append, crlf, List.length_nil]]
        exact List.drop_left _ _
      have helems : parseElems fp items.length
          (((126 : Nat) :: ((natDecimal items.length ++ crlf)
            ++ (encodeListF fe items ++ rest))).drop ((natDecimal items.length).length + 3))
          = .ok (some (items, (encodeListF fe items).length)) := by
        rw [hdrop]
        exact (ih (sizeOf items) (by omega)).2.1 items le_rfl hall fe (by omega) fp (by omega) rest
      rw [parseF_set_some fp _ items.length ((natDecimal items.length).length + 3) items
        (encodeListF fe items).length hagg helems]
      rw [show (encodeF (fe + 1) (.set (some items))).length
        = (natDecimal items.length).length + 3 + (encodeListF fe items).length from by
          rw [show encodeF (fe + 1) (.set (some items))
            = 126 :: (natDecimal items.length ++ crlf ++ encodeListF fe items) from rfl]
          simp only [List.length_cons, List.length_append, crlf, List.length_nil]; omega]
    | mapNone => rfl
    | mapSome items hlen hks hvs =>
      simp at hN hfe hfp
      have hsh : encodeF (fe + 1) (.map (some items)) ++ rest
          = 37 :: ((natDecimal items.length ++ crlf) ++ (encodePairsF fe items ++ rest)) := by
        rw [show encodeF (fe + 1) (.map (some items))
          = 37 :: (natDecimal items.length ++ crlf ++ encodePairsF fe items) from rfl]
        simp
      rw [hsh]
      have hagg : parseAggCore
          (37 :: ((natDecimal items.length ++ crlf) ++ (encodePairsF fe items ++ rest)))
          = .ok (some ((items.length : Int), (natDecimal items.length).length + 3)) := by
        rw [show (37 : Nat) :: ((natDecimal items.length ++ crlf) ++ (encodePairsF fe items ++ rest))
          = (37 :: (natDecimal items.length ++ crlf)) ++ (encodePairsF fe items ++ rest) from rfl]
        exact parseAggCore_round 37 items.length _ hlen
      have hdrop : ((37 : Nat) :: ((natDecimal items.length ++ crlf)
            ++ (encodePairsF fe items ++ rest))).drop ((natDecimal items.length).length + 3)
          = encodePairsF fe items ++ rest := by
        rw [show (37 : Nat) :: ((natDecimal items.length ++ crlf) ++ (encodePairsF fe items ++ rest))
          = (37 :: (natDecimal items.length ++ crlf)) ++ (encodePairsF fe items ++ rest) from rfl]
        rw [show (natDecimal items.length).length + 3
          = (37 :: (natDecimal items.length ++ crlf)).length from by
            simp only [List.length_cons, List.length_append, crlf, List.length_nil]]
        exact List.drop_left _ _
      have hpairs : parsePairs fp items.length
          (((37 : Nat) :: ((natDecimal items.length ++ crlf)
            ++ (encodePairsF fe items ++ rest))).drop ((natDecimal items.length).length + 3))
          = .ok (some (items, (encodePairsF fe items).length)) := by
        rw [hdrop]
        exact (ih (sizeOf items) (by omega)).2.2 items le_rfl hks hvs fe (by omega) fp
          (by omega) rest
      rw [parseF_map_some fp _ items.length ((natDecimal items.length).length + 3) items
        (encodePairsF fe items).length hagg hpairs]
      rw [show (encodeF (fe + 1) (.map (some items))).length
        = (natDecimal items.length).length + 3 + (encodePairsF fe items).length from by
          rw [show encodeF (fe + 1) (.map (some items))
            = 37 :: (natDecimal items.length ++ crlf ++ encodePairsF fe items) from rfl]
          simp only [List.length_cons, List.length_append, crlf, List.length_nil]; omega]
    | push items hlen hall =>
      simp at hN hfe hfp
      have hsh : encodeF (fe + 1) (.push items) ++ rest
          = 62 :: ((natDecimal items.length ++ crlf) ++ (encodeListF fe items ++ rest)) := by
        rw [show encodeF (fe + 1) (.push items)
          = 62 :: (natDecimal items.length ++ crlf ++ encodeListF fe items) from rfl]
        simp
      rw [hsh]
      have hagg : parseAggCore
          (62 :: ((natDecimal items.length ++ crlf) ++ (encodeListF fe items ++ rest)))
          = .ok (some ((items.length : Int), (natDecimal items.length).length + 3)) := by
        rw [show (62 : Nat) :: ((natDecimal items.length ++ crlf) ++ (encodeListF fe items ++ rest))
          = (62 :: (natDecimal items.length ++ crlf)) ++ (encodeListF fe items ++ rest) from rfl]
        exact parseAggCore_round 62 items.length _ hlen
      have hdrop : ((62 : Nat) :: ((natDecimal items.length ++ crlf)
            ++ (encodeListF fe items ++ rest))).drop ((natDecimal items.length).length + 3)
          = encodeListF fe items ++ rest := by
        rw [show (62 : Nat) :: ((natDecimal items.length ++ crlf) ++ (encodeListF fe items ++ rest))
          = (62 :: (natDecimal items.length ++ crlf)) ++ (encodeListF fe items ++ rest) from rfl]
        rw [show (natDecimal items.length).length + 3
          = (62 :: (natDecimal items.length ++ crlf)).length from by
            simp only [List.length_cons, List.length_append, crlf, List.length_nil]]
        exact List.drop_left _ _
      have helems : parseElems fp items.length
          (((62 : Nat) :: ((natDecimal items.length ++ crlf)
            ++ (encodeListF fe items ++ rest))).drop ((natDecimal items.length).length + 3))
          = .ok (some (items, (encodeListF fe items).length)) := by
        rw [hdrop]
        exact (ih (sizeOf items) (by omega)).2.1 items le_rfl hall fe (by omega) fp (by omega) rest
      rw [parseF_push_some fp _ items.length ((natDecimal items.length).length + 3) items
        (encodeListF fe items).length hagg helems]
      rw [show (encodeF (fe + 1) (.push items)).length
        = (natDecimal items.length).length + 3 + (encodeListF fe items).length from by
          rw [show encodeF (fe + 1) (.push items)
            = 62 :: (natDecimal items.length ++ crlf ++ encodeListF fe items) from rfl]
          simp only [List.length_cons, List.length_append, crlf, List.length_nil]; omega]
  · intro L hN hall fe hfe fp hfp rest
    have hpos := sizeOf_list_pos L
    rcases fe with _ | fe
    · omega
    rcases fp with _ | fp
    · omega
    cases L with
    | nil => rfl
    | cons f fs =>
      simp at hN hfe hfp
      simp only [List.length_cons]
      rw [show encodeListF (fe + 1) (f :: fs) = encodeF fe f ++ encodeListF fe fs from rfl]
      rw [List.append_assoc]
      rw [parseElems]
      have hF := (ih (sizeOf f) (by omega)).1 f le_rfl (hall f (by simp)) fe (by omega) fp
        (by omega) (encodeListF fe fs ++ rest)
      rw [hF]
      dsimp only
      rw [List.drop_left]
      have hL := (ih (sizeOf fs) (by omega)).2.1 fs le_rfl
        (fun g hg => hall g (by simp [hg])) fe (by omega) fp (by omega) rest
      rw [hL]
      dsimp only
      rw [show (encodeF fe f ++ encodeListF fe fs).length
        = (encodeF fe f).length + (encodeListF fe fs).length from List.length_append _ _]
  · intro P hN hks hvs fe hfe fp hfp rest
    have hpos := sizeOf_list_pos P
    rcases fe with _ | fe
    · omega
    rcases fp with _ | fp
    · omega
    cases P with
    | nil => rfl
    | cons kv ps =>
      obtain ⟨k, v⟩ := kv
      simp at hN hfe hfp
      simp only [List.length_cons]
      rw [show encodePairsF (fe + 1) ((k, v) :: ps)
        = (encodeF fe k ++ encodeF fe v) ++ encodePairsF fe ps from rfl]
      rw [List.append_assoc, List.append_assoc]
      rw [parsePairs]
      have hK := (ih (sizeOf k) (by omega)).1 k le_rfl (by simpa using hks (k, v) (by simp))
        fe (by omega) fp (by omega) (encodeF fe v ++ (encodePairsF fe ps ++ rest))
      rw [hK]
      dsimp only
      rw [List.drop_left]
      have hV := (ih (sizeOf v) (by omega)).1 v le_rfl (by simpa using hvs (k, v) (by simp))
        fe (by omega) fp (by omega) (encodePairsF fe ps ++ rest)
      rw [hV]
      dsimp only
      have hd2 : (encodeF fe k ++ (encodeF fe v ++ (encodePairsF fe ps ++ rest))).drop
          ((encodeF fe k).length + (encodeF fe v).length) = encodePairsF fe ps ++ rest := by
        rw [show encodeF fe k ++ (encodeF fe v ++ (encodePairsF fe ps ++ rest))
          = (encodeF fe k ++ encodeF fe v) ++ (encodePairsF fe ps ++ rest) from by simp]
        rw [show (encodeF fe k).length + (encodeF fe v).length
          = (encodeF fe k ++ encodeF fe v).length from (List.length_append _ _).symm]
        exact List.drop_left _ _
      rw [hd2]
      have hP := (ih (sizeOf ps) (by omega)).2.2 ps le_rfl
        (fun p hp => hks p (by simp [hp])) (fun p hp => hvs p (by simp [hp]))
        fe (by omega) fp (by omega) rest
      rw [hP]
      dsimp only
      rw [show ((encodeF fe k ++ encodeF fe v) ++ encodePairsF fe ps).length
        = (encodeF fe k).length + (encodeF fe v).length + (encodePairsF fe ps).length from by
          simp only [List.length_append]]

/-- C2 (amended): decode inverts encode. For every frame `F` satisfying
`Good` — simple-string and error payloads are CRLF-free valid UTF-8,
integers and lengths fit the 64-bit parses of the source, and no `Double`
occurs — the parser applied to `encodeF fe F` followed by arbitrary
trailing bytes returns exactly `F` and consumes exactly the emitted byte
count, for every sufficient encoder fuel `fe` and parser fuel `fp` (the
fuel is an artifact of the embedding; the source functions recurse
unboundedly). The unamended claim fails: a NaN double breaks `F = F`
round-trip and the reverse direction `encode(decode(B)) = B` fails on
non-canonical well-formed inputs (see the counterexample theorem). -/
theorem C2_amended_decode_encode_roundtrip (F : Resp) (hg : Good F)
    (fe fp : Nat) (hfe : sizeOf F ≤ fe) (hfp : sizeOf F ≤ fp) (rest : List Nat) :
    parseF fp (encodeF fe F ++ rest) = .ok (some (F, (encodeF fe F).length)) :=
  (respRound (sizeOf F)).1 F le_rfl hg fe hfe fp hfp rest

theorem C2_amended_decode_encode_roundtrip_witness :
    Good (Resp.array (some [.simple (asciiBytes "OK"), .int 7])) ∧
    parseF 600 (encodeF 600 (Resp.array (some [.simple (asciiBytes "OK"), .int 7])) ++ [43])
      = .ok (some (Resp.array (some [.simple (asciiBytes "OK"), .int 7]),
          (encodeF 600 (Resp.array (some [.simple (asciiBytes "OK"), .int 7]))).length)) := by
  have hg : Good (Resp.array (some [.simple (asciiBytes "OK"), .int 7])) := by
    refine Good.arraySome _ (by decide) ?_
    intro f hf
    simp only [List.mem_cons, List.not_mem_nil, or_false] at hf
    rcases hf with h | h <;> subst h
    · exact Good.simple _ (by decide) (by decide) (by decide)
    · exact Good.int 7 (by decide) (by decide)
  exact ⟨hg, C2_amended_decode_encode_roundtrip
    (Resp.array (some [.simple (asciiBytes "OK"), .int 7])) hg 600 600
    (by decide) (by decide) [43]⟩

/-! ## C8: preservation of the no-empty-container invariant -/

theorem noEmpty_insert (m : List (Key × Value)) (e : Expiry) (k : Key) (v : Value)
    (h : ∀ k2 v2, aGet m k2 = some v2 → containerOk v2) (hv : containerOk v) :
    noEmpty ⟨aInsert m k v, e⟩ := by
  intro k2 v2 hg
  by_cases hk : k2 = k
  · subst hk
    rw [aGet_aInsert_self] at hg
    have : v2 = v := (Option.some.inj hg).symm
    rw [this]
    exact hv
  · rw [aGet_aInsert_ne _ _ _ _ hk] at hg
    exact h _ _ hg

theorem noEmpty_remove (m : List (Key × Value)) (e : Expiry) (k : Key)
    (h : ∀ k2 v2, aGet m k2 = some v2 → containerOk v2) :
    noEmpty ⟨aRemove m k, e⟩ := by
  intro k2 v2 hg
  by_cases hk : k2 = k
  · subst hk
    rw [aGet_aRemove_self] at hg
    cases hg
  · rw [aGet_aRemove_ne _ _ _ hk] at hg
    exact h _ _ hg

theorem noEmpty_keep (db : Database) (e : Expiry) (h : noEmpty db) :
    noEmpty ⟨db.data, e⟩ :=
  fun k v hg => h k v hg

theorem del_noEmpty (db : Database) (keys : List Key) (h : noEmpty db) :
    noEmpty (db.del keys).1 := by
  induction keys generalizing db with
  | nil => exact h
  | cons k2 rest ih =>
    rw [del_cons]
    by_cases hp : (aGet db.data k2).isSome
    · rw [if_pos hp]
      exact ih _ (noEmpty_remove db.data _ k2 h)
    · rw [if_neg hp]
      exact ih db h

theorem existsCount_cons (db : Database) (k2 : Key) (rest : List Key) (now : Nat) :
    db.existsCount (k2 :: rest) now =
      if db.expiry.is_expired k2 now then
        Database.existsCount ⟨aRemove db.data k2, db.expiry.remove k2⟩ rest now
      else
        ((db.existsCount rest now).1,
          if (aGet db.data k2).isSome then (db.existsCount rest now).2 + 1
          else (db.existsCount rest now).2) := by
  rw [Database.existsCount]

theorem existsCount_noEmpty (db : Database) (keys : List Key) (now : Nat)
    (h : noEmpty db) : noEmpty (db.existsCount keys now).1 := by
  induction keys generalizing db with
  | nil => exact h
  | cons k2 rest ih =>
    rw [existsCount_cons]
    by_cases he : db.expiry.is_expired k2 now
    · rw [if_pos he]
      exact ih _ (noEmpty_remove db.data _ k2 h)
    · rw [if_neg he]
      exact ih db h

theorem foldl_aRemove_ok (ks : List Key) (m : List (Key × Value))
    (h : ∀ k v, aGet m k = some v → containerOk v) :
    ∀ k v, aGet (ks.foldl (fun m2 k2 => aRemove m2 k2) m) k = some v → containerOk v := by
  induction ks generalizing m with
  | nil => exact h
  | cons k0 rest ih =>
    refine ih (aRemove m k0) ?_
    intro k v hg
    by_cases hk : k = k0
    · subst hk
      rw [aGet_aRemove_self] at hg
      cases hg
    · rw [aGet_aRemove_ne _ _ _ hk] at hg
      exact h _ _ hg

theorem evict_noEmpty (db : Database) (now : Nat) (h : noEmpty db) :
    noEmpty (db.evict_expired now).1 := by
  unfold Database.evict_expired
  rcases hres : db.expiry.drain_expired now with ⟨expired, e2⟩
  intro k v hg
  exact foldl_aRemove_ok expired db.data h k v hg

theorem setInsert_ne_nil (s : List Bytes) (m : Bytes) : (setInsert s m).1 ≠ [] := by
  unfold setInsert
  by_cases hc : s.contains m
  · rw [if_pos hc]
    intro hnil
    have hs : s = [] := hnil
    rw [hs] at hc
    simp at hc
  · rw [if_neg hc]
    simp

theorem saddFold_ne_nil (ms : List Bytes) (acc : List Bytes × Nat)
    (h : ms ≠ [] ∨ acc.1 ≠ []) :
    (ms.foldl (fun (p : List Bytes × Nat) m =>
      let (s2, isNew) := setInsert p.1 m
      (s2, if isNew then p.2 + 1 else p.2)) acc).1 ≠ [] := by
  induction ms generalizing acc with
  | nil =>
    rcases h with hm | ha
    · exact absurd rfl hm
    · exact ha
  | cons m rest ih =>
    rw [List.foldl_cons]
    refine ih _ (Or.inr ?_)
    rcases hsi : setInsert acc.1 m with ⟨s2, isNew⟩
    have := setInsert_ne_nil acc.1 m
    rw [hsi] at this
    simpa using this

theorem hsetStep_ne_nil (hm : List (Bytes × Bytes)) (fv : Bytes × Bytes) :
    (if ((hm.find? (fun q => q.1 = fv.1)).isNone : Bool) then hm ++ [fv]
      else hm.map (fun q => if q.1 = fv.1 then fv else q)) ≠ [] := by
  by_cases hf : ((hm.find? (fun q => q.1 = fv.1)).isNone : Bool)
  · rw [if_pos hf]
    simp
  · rw [if_neg hf]
    intro hnil
    have : hm = [] := by
      have := congrArg List.length hnil
      simpa using this
    rw [this] at hf
    simp at hf

theorem hsetFold_ne_nil (fs : List (Bytes × Bytes)) (acc : List (Bytes × Bytes) × Nat)
    (h : fs ≠ [] ∨ acc.1 ≠ []) :
    (fs.foldl (fun (p : List (Bytes × Bytes) × Nat) fv =>
      let fresh := (p.1.find? (fun q => q.1 = fv.1)).isNone
      (if fresh then p.1 ++ [fv] else p.1.map (fun q => if q.1 = fv.1 then fv else q),
       if fresh then p.2 + 1 else p.2)) acc).1 ≠ [] := by
  induction fs generalizing acc with
  | nil =>
    rcases h with hm | ha
    · exact absurd rfl hm
    · exact ha
  | cons fv rest ih =>
    rw [List.foldl_cons]
    exact ih _ (Or.inr (hsetStep_ne_nil acc.1 fv))

theorem insertPartial_length (x : Bytes × F64) (l : List (Bytes × F64))
    (r : List (Bytes × F64)) (h : insertPartial x l = some r) :
    r.length = l.length + 1 := by
  induction l generalizing r with
  | nil =>
    have : r = [x] := (Option.some.inj h).symm
    rw [this]
    rfl
  | cons y ys ih =>
    unfold insertPartial at h
    rcases hc : zCmp x y with _ | o
    · rw [hc] at h; cases h
    · rw [hc] at h
      dsimp only at h
      by_cases ho : o = .gt
      · rw [if_pos ho] at h
        rcases hi : insertPartial x ys with _ | r'
        · rw [hi] at h; cases h
        · rw [hi] at h
          have : y :: r' = r := Option.some.inj h
          rw [← this]
          simp [ih r' hi]
      · rw [if_neg ho] at h
        have : x :: y :: ys = r := Option.some.inj h
        rw [← this]
        rfl

theorem sortPartial_length (l r : List (Bytes × F64)) (h : sortPartial l = some r) :
    r.length = l.length := by
  induction l generalizing r with
  | nil =>
    have : r = [] := (Option.some.inj h).symm
    rw [this]
  | cons x xs ih =>
    have h2 : (sortPartial xs).bind (insertPartial x) = some r := h
    rcases hs : sortPartial xs with _ | r'
    · rw [hs] at h2; cases h2
    · rw [hs] at h2
      have h3 : insertPartial x r' = some r := h2
      rw [List.length_cons, ← ih r' hs]
      exact insertPartial_length x r' r h3

/-- C8 (amended): every keyspace operation preserves the no-empty-container
invariant, given the argument shapes the dispatcher and replayer guarantee
everywhere except the replay `ZADD` arm: pushes/adds carry at least one
element, and `zadd` receives at least one member.  (`zadd` with zero
members — reachable via replay with unparsable scores — is the sole
exception, exhibited by the counterexample.) -/
theorem C8_amended_no_empty_preserved (db : Database) (hne : noEmpty db)
    (k : Key) (b : Bytes) (vs ms : List Bytes) (fs : List (Bytes × Bytes))
    (zms : List (Bytes × F64)) (keys : List Key) (ttl now : Nat) (r : Database × Nat)
    (hvs : vs ≠ []) (hms : ms ≠ []) (hfs : fs ≠ []) (hzms : zms ≠ [])
    (hzr : db.zadd k zms = some r) :
    noEmpty (db.set k (.str b)) ∧
    noEmpty (db.set_with_expiry k (.str b) ttl now) ∧
    noEmpty (db.get k now).1 ∧
    noEmpty (db.existsCount keys now).1 ∧
    noEmpty (db.del keys).1 ∧
    noEmpty (db.ttl_millis k now).1 ∧
    noEmpty (db.evict_expired now).1 ∧
    noEmpty (db.lpush k vs).1 ∧
    noEmpty (db.rpush k vs).1 ∧
    noEmpty (db.lpop k).1 ∧
    noEmpty (db.rpop k).1 ∧
    noEmpty (db.sadd k ms).1 ∧
    noEmpty (db.srem k ms).1 ∧
    noEmpty (db.hset k fs).1 ∧
    noEmpty r.1 ∧
    noEmpty (db.zrem k ms).1 := by
  refine ⟨?_, ?_, ?_, existsCount_noEmpty db keys now hne, del_noEmpty db keys hne,
    ?_, evict_noEmpty db now hne, ?_, ?_, ?_, ?_, ?_, ?_, ?_, ?_, ?_⟩
  · exact noEmpty_insert db.data _ k _ hne trivial
  · exact noEmpty_insert db.data _ k _ hne trivial
  · unfold Database.get
    by_cases he : db.expiry.is_expired k now
    · rw [if_pos he]
      exact noEmpty_remove db.data _ k hne
    · rw [if_neg he]
      exact hne
  · unfold Database.ttl_millis
    by_cases he : db.expiry.is_expired k now
    · rw [if_pos he]
      exact noEmpty_remove db.data _ k hne
    · rw [if_neg he]
      by_cases hn : (aGet db.data k).isNone
      · rw [if_pos hn]
        exact hne
      · rw [if_neg hn]
        rcases db.expiry.get_deadline k with _ | d <;> exact hne
  · unfold Database.lpush
    dsimp only
    rcases aGet db.data k with _ | v
    · dsimp only
      refine noEmpty_insert db.data _ k _ hne ?_
      simpa [containerOk] using hvs
    · rcases v with b2 | l | s | hsh | z <;> dsimp only
      · exact noEmpty_keep db _ hne
      · refine noEmpty_insert db.data _ k _ hne ?_
        simp [containerOk, hvs]
      · exact noEmpty_keep db _ hne
      · exact noEmpty_keep db _ hne
      · exact noEmpty_keep db _ hne
  · unfold Database.rpush
    dsimp only
    rcases aGet db.data k with _ | v
    · dsimp only
      refine noEmpty_insert db.data _ k _ hne ?_
      simpa [containerOk] using hvs
    · rcases v with b2 | l | s | hsh | z <;> dsimp only
      · exact noEmpty_keep db _ hne
      · refine noEmpty_insert db.data _ k _ hne ?_
        simp [containerOk, hvs]
      · exact noEmpty_keep db _ hne
      · exact noEmpty_keep db _ hne
      · exact noEmpty_keep db _ hne
  · unfold Database.lpop
    rcases aGet db.data k with _ | v
    · exact hne
    · rcases v with b2 | l | s | hsh | z
      · exact hne
      · dsimp only
        rcases l with _ | ⟨x, rest⟩
        · exact noEmpty_remove db.data _ k hne
        · dsimp only
          by_cases he : rest.isEmpty
          · rw [if_pos he]
            exact noEmpty_remove db.data _ k hne
          · rw [if_neg he]
            refine noEmpty_insert db.data _ k _ hne ?_
            simpa [containerOk, List.isEmpty_iff] using he
      · exact hne
      · exact hne
      · exact hne
  · unfold Database.rpop
    rcases aGet db.data k with _ | v
    · exact hne
    · rcases v with b2 | l | s | hsh | z
      · exact hne
      · dsimp only
        rcases l.getLast? with _ | x
        · exact noEmpty_remove db.data _ k hne
        · dsimp only
          by_cases he : l.dropLast.isEmpty
          · rw [if_pos he]
            exact noEmpty_remove db.data _ k hne
          · rw [if_neg he]
            refine noEmpty_insert db.data _ k _ hne ?_
            simpa [containerOk, List.isEmpty_iff] using he
      · exact hne
      · exact hne
      · exact hne
  · unfold Database.sadd
    rcases aGet db.data k with _ | v
    · dsimp only
      refine noEmpty_insert db.data _ k _ hne ?_
      show (ms.foldl (fun (p : List Bytes × Nat) m =>
        let (s2, isNew) := setInsert p.1 m
        (s2, if isNew then p.2 + 1 else p.2)) ([], 0)).1 ≠ []
      exact saddFold_ne_nil ms ([], 0) (Or.inl hms)
    · rcases v with b2 | l | s | hsh | z <;> dsimp only
      · exact noEmpty_keep db _ hne
      · exact noEmpty_keep db _ hne
      · refine noEmpty_insert db.data _ k _ hne ?_
        show (ms.foldl (fun (p : List Bytes × Nat) m =>
          let (s2, isNew) := setInsert p.1 m
          (s2, if isNew then p.2 + 1 else p.2)) (s, 0)).1 ≠ []
        exact saddFold_ne_nil ms (s, 0) (Or.inl hms)
      · exact noEmpty_keep db _ hne
      · exact noEmpty_keep db _ hne
  · unfold Database.srem
    rcases aGet db.data k with _ | v
    · exact hne
    · rcases v with b2 | l | s | hsh | z
      · exact hne
      · exact hne
      · dsimp only
        by_cases he : (s.filter (fun m => ¬ ms.contains m)).isEmpty
        · rw [if_pos he]
          exact noEmpty_remove db.data _ k hne
        · rw [if_neg he]
          refine noEmpty_insert db.data _ k _ hne ?_
          simpa [containerOk, List.isEmpty_iff] using he
      · exact hne
      · exact hne
  · unfold Database.hset
    rcases aGet db.data k with _ | v
    · dsimp only
      refine noEmpty_insert db.data _ k _ hne ?_
      show (fs.foldl (fun (p : List (Bytes × Bytes) × Nat) fv =>
        let fresh := (p.1.find? (fun q => q.1 = fv.1)).isNone
        (if fresh then p.1 ++ [fv] else p.1.map (fun q => if q.1 = fv.1 then fv else q),
         if fresh then p.2 + 1 else p.2)) ([], 0)).1 ≠ []
      exact hsetFold_ne_nil fs ([], 0) (Or.inl hfs)
    · rcases v with b2 | l | s | hsh | z <;> dsimp only
      · exact noEmpty_keep db _ hne
      · exact noEmpty_keep db _ hne
      · exact noEmpty_keep db _ hne
      · refine noEmpty_insert db.data _ k _ hne ?_
        show (fs.foldl (fun (p : List (Bytes × Bytes) × Nat) fv =>
          let fresh := (p.1.find? (fun q => q.1 = fv.1)).isNone
          (if fresh then p.1 ++ [fv] else p.1.map (fun q => if q.1 = fv.1 then fv else q),
           if fresh then p.2 + 1 else p.2)) (hsh, 0)).1 ≠ []
        exact hsetFold_ne_nil fs (hsh, 0) (Or.inl hfs)
      · exact noEmpty_keep db _ hne
  · unfold Database.zadd at hzr
    rcases hget : aGet db.data k with _ | v
    · rw [hget] at hzr
      dsimp only at hzr
      rcases hzu : zUpsert [] 0 zms with ⟨v2, added⟩
      rw [hzu] at hzr
      dsimp only at hzr
      rcases hs : sortPartial v2 with _ | sorted
      · rw [hs] at hzr; cases hzr
      · rw [hs] at hzr
        have hr : ((⟨aInsert db.data k (Value.zset sorted), db.expiry⟩ : Database), added) = r :=
          Option.some.inj hzr
        rw [← hr]
        refine noEmpty_insert db.data _ k _ hne ?_
        show sorted ≠ []
        have hlen := sortPartial_length v2 sorted hs
        have hv2 : v2 ≠ [] := by
          have := zUpsert_ne_nil zms [] 0 (Or.inr hzms)
          rw [hzu] at this
          simpa using this
        intro hnil
        rw [hnil] at hlen
        have : v2.length = 0 := by simpa using hlen.symm
        exact hv2 (List.length_eq_zero.mp this)
    · rw [hget] at hzr
      rcases v with b2 | l | s | hsh | z0
      · dsimp only at hzr
        have : (db, 0) = r := Option.some.inj hzr
        rw [← this]
        exact hne
      · dsimp only at hzr
        have : (db, 0) = r := Option.some.inj hzr
        rw [← this]
        exact hne
      · dsimp only at hzr
        have : (db, 0) = r := Option.some.inj hzr
        rw [← this]
        exact hne
      · dsimp only at hzr
        have : (db, 0) = r := Option.some.inj hzr
        rw [← this]
        exact hne
      · dsimp only at hzr
        rcases hzu : zUpsert z0 0 zms with ⟨v2, added⟩
        rw [hzu] at hzr
        dsimp only at hzr
        rcases hs : sortPartial v2 with _ | sorted
        · rw [hs] at hzr; cases hzr
        · rw [hs] at hzr
          have hr : ((⟨aInsert db.data k (Value.zset sorted), db.expiry⟩ : Database), added) = r :=
            Option.some.inj hzr
          rw [← hr]
          refine noEmpty_insert db.data _ k _ hne ?_
          show sorted ≠ []
          have hlen := sortPartial_length v2 sorted hs
          have hv2 : v2 ≠ [] := by
            have := zUpsert_ne_nil zms z0 0 (Or.inr hzms)
            rw [hzu] at this
            simpa using this
          intro hnil
          rw [hnil] at hlen
          have : v2.length = 0 := by simpa using hlen.symm
          exact hv2 (List.length_eq_zero.mp this)
  · unfold Database.zrem
    rcases aGet db.data k with _ | v
    · exact hne
    · rcases v with b2 | l | s | hsh | z
      · exact hne
      · exact hne
      · exact hne
      · exact hne
      · dsimp only
        by_cases he : (z.filter (fun p => ¬ ms.contains p.1)).isEmpty
        · rw [if_pos he]
          exact noEmpty_remove db.data _ k hne
        · rw [if_neg he]
          refine noEmpty_insert db.data _ k _ hne ?_
          simpa [containerOk, List.isEmpty_iff] using he

/-- Witness for the C8 amendment on the empty store with one-element
arguments. -/
theorem C8_amended_no_empty_preserved_witness :
    noEmpty ((Database.empty.lpush (asciiBytes "l") [asciiBytes "a"]).1) :=
  (C8_amended_no_empty_preserved Database.empty (fun k v hg => by cases hg)
    (asciiBytes "l") (asciiBytes "b") [asciiBytes "a"] [asciiBytes "m"]
    [(asciiBytes "f", asciiBytes "w")] [(asciiBytes "z", .finite 1)] [] 1 0
    ((⟨[(asciiBytes "l", Value.zset [(asciiBytes "z", .finite 1)])], Expiry.empty⟩ : Database), 1)
    (by simp) (by simp) (by simp) (by simp) rfl).2.2.2.2.2.2.2.1

/-! ## C9: `lrange` index semantics -/

/-- C9: `Database::lrange` computes exactly the claimed semantics — a
negative index denotes `len + i`, out-of-range indices clamp, an effective
start beyond the effective stop yields the empty list, and otherwise the
result is the inclusive slice between the effective indices
(`lrangeClaim` is that specification, written from the claim text). -/
theorem C9_lrange_matches_claim (db : Database) (k : Key) (l : List Bytes)
    (start stop : Int) (h : aGet db.data k = some (.list l)) :
    db.lrange k start stop = lrangeClaim l start stop := by
  unfold Database.lrange lrangeClaim
  rw [h]
  dsimp only
  have h0 : (0 : Int) ≤ (l.length : Int) := by positivity
  by_cases hl : l = []
  · subst hl
    simp only [List.length_nil, Nat.cast_zero]
    split_ifs <;> simp
  · have h1 : (1 : Int) ≤ (l.length : Int) := by
      have := List.length_pos.mpr hl
      omega
    have hs : (if start < 0 then max ((l.length : Int) + start) 0
          else min start (l.length : Int))
        = min (max (if start < 0 then (l.length : Int) + start else start) 0)
            (l.length : Int) := by
      split_ifs <;> omega
    have he : (if stop < 0 then max ((l.length : Int) + stop) 0
          else min stop ((l.length : Int) - 1))
        = min (max (if stop < 0 then (l.length : Int) + stop else stop) 0)
            ((l.length : Int) - 1) := by
      split_ifs <;> omega
    rw [hs, he]
    set a : Int := min (max (if start < 0 then (l.length : Int) + start else start) 0)
      (l.length : Int) with ha
    set b : Int := min (max (if stop < 0 then (l.length : Int) + stop else stop) 0)
      ((l.length : Int) - 1) with hb
    have ha0 : 0 ≤ a := by rw [ha]; omega
    have hb0 : 0 ≤ b := by rw [hb]; omega
    by_cases hab : a > b
    · rw [if_pos (by omega), if_pos hab]
    · rw [if_neg (by omega), if_neg hab]
      congr 1
      omega

/-- Witness for C9 at a concrete list and negative indices. -/
theorem C9_lrange_matches_claim_witness :
    (Database.empty.rpush (asciiBytes "l")
        [asciiBytes "a", asciiBytes "b", asciiBytes "c"]).1.lrange (asciiBytes "l") (-2) (-1)
      = lrangeClaim [asciiBytes "a", asciiBytes "b", asciiBytes "c"] (-2) (-1) :=
  C9_lrange_matches_claim
    (Database.empty.rpush (asciiBytes "l")
      [asciiBytes "a", asciiBytes "b", asciiBytes "c"]).1
    (asciiBytes "l") [asciiBytes "a", asciiBytes "b", asciiBytes "c"] (-2) (-1) rfl

/-- Witness for the C5 amendment at a concrete one-key deletion. -/
theorem C5_amended_deadline_removal_witness :
    ((Database.set_with_expiry Database.empty (asciiBytes "k") (.str (asciiBytes "v"))
        100 0).del [asciiBytes "k"]).1.expiry.get_deadline (asciiBytes "k") = none :=
  (C5_amended_deadline_removal
    (Database.set_with_expiry Database.empty (asciiBytes "k") (.str (asciiBytes "v")) 100 0)
    [asciiBytes "k"] (asciiBytes "k") (asciiBytes "j") [] 0 (by simp) rfl).1

end Rfs
